import Mathlib

/-!
Shallow embedding of `src/learn.py` (Broadlink IR learning helper).

Python `Decimal` values are modelled by the structure `Dec` below: a sign
flag, a natural-number coefficient and an integer exponent, with numeric
value `±coeff * 10^exp` as a rational number.  Decimal arithmetic in the
script (addition, comparison, remainder-is-zero tests) is exact at these
magnitudes, so the model computes values in `ℚ`.
-/

/-- Model of a Python `Decimal`: sign flag, coefficient, exponent.
The numeric value is `(-1)^neg * coeff * 10^exp`.  Python `Decimal`
distinguishes `-0` from `0`, which the `neg` flag captures. -/
structure Dec where
  neg : Bool
  coeff : ℕ
  exp : ℤ
  deriving DecidableEq, Repr

namespace Dec

/-- Power of ten as a rational, for an integer exponent. -/
def pow10 (e : ℤ) : ℚ :=
  if 0 ≤ e then (10 : ℚ) ^ e.toNat else ((10 : ℚ) ^ (-e).toNat)⁻¹

/-- Signed mantissa of a decimal. -/
def sm (d : Dec) : ℤ := if d.neg then -(d.coeff : ℤ) else (d.coeff : ℤ)

/-- Numeric value of a decimal as a rational. -/
def val (d : Dec) : ℚ := (d.sm : ℚ) * pow10 d.exp

theorem pow10_eq_zpow (e : ℤ) : pow10 e = (10 : ℚ) ^ e := by
  unfold pow10
  split
  · rw [← zpow_natCast]
    congr 1
    omega
  · rw [← zpow_natCast, ← zpow_neg]
    congr 1
    omega

theorem pow10_pos (e : ℤ) : 0 < pow10 e := by
  rw [pow10_eq_zpow]
  positivity

/-- Exact addition of decimals: the result exponent is the minimum of the
two exponents, mirroring Python `Decimal` addition (exact at these sizes).
The sign of a zero sum is negative only when both operands are negative,
matching the decimal arithmetic specification under the default rounding. -/
def add (a b : Dec) : Dec :=
  let e := min a.exp b.exp
  let m := a.sm * 10 ^ (a.exp - e).toNat + b.sm * 10 ^ (b.exp - e).toNat
  ⟨if m = 0 then a.neg && b.neg else decide (m < 0), m.natAbs, e⟩

theorem sm_mk (n : Bool) (c : ℕ) (e : ℤ) : (Dec.mk n c e).sm = if n then -(c : ℤ) else (c : ℤ) := rfl

theorem sm_add (a b : Dec) :
    (a.add b).sm =
      a.sm * 10 ^ (a.exp - min a.exp b.exp).toNat +
        b.sm * 10 ^ (b.exp - min a.exp b.exp).toNat := by
  unfold add
  simp only [sm_mk]
  set m := a.sm * 10 ^ (a.exp - min a.exp b.exp).toNat +
      b.sm * 10 ^ (b.exp - min a.exp b.exp).toNat with hm
  rcases eq_or_ne m 0 with h | h
  · simp [h]
  · simp only [if_neg h]
    rcases lt_or_ge m 0 with hlt | hge
    · rw [if_pos (by simpa using hlt)]
      omega
    · rw [if_neg (by simpa using not_lt.mpr hge)]
      omega

theorem val_eq_sm_mul (d : Dec) : d.val = (d.sm : ℚ) * pow10 d.exp := rfl

theorem exp_add (a b : Dec) : (a.add b).exp = min a.exp b.exp := rfl

theorem pow_mul_pow10 (k : ℕ) (e : ℤ) :
    ((10 : ℚ) ^ k) * pow10 e = pow10 (e + k) := by
  rw [pow10_eq_zpow, pow10_eq_zpow, ← zpow_natCast (10 : ℚ) k, ← zpow_add₀ (by norm_num : (10:ℚ) ≠ 0)]
  ring_nf

theorem val_add (a b : Dec) : (a.add b).val = a.val + b.val := by
  rw [val_eq_sm_mul, sm_add, exp_add]
  push_cast
  rw [add_mul]
  have ha : ((10 : ℚ) ^ (a.exp - min a.exp b.exp).toNat) * pow10 (min a.exp b.exp) = pow10 a.exp := by
    rw [pow_mul_pow10]
    congr 1
    omega
  have hb : ((10 : ℚ) ^ (b.exp - min a.exp b.exp).toNat) * pow10 (min a.exp b.exp) = pow10 b.exp := by
    rw [pow_mul_pow10]
    congr 1
    omega
  rw [val_eq_sm_mul, val_eq_sm_mul, ← ha, ← hb]
  ring

/-- Mantissa of `a` rescaled to exponent `e` (meaningful for `e ≤ a.exp`):
`a.val = a.scaleAt e * 10^e`. -/
def scaleAt (a : Dec) (e : ℤ) : ℤ := a.sm * 10 ^ (a.exp - e).toNat

theorem scaleAt_val (a : Dec) (e : ℤ) (h : e ≤ a.exp) :
    ((a.scaleAt e : ℤ) : ℚ) * pow10 e = a.val := by
  unfold scaleAt
  have h2 : e + (((a.exp - e).toNat : ℕ) : ℤ) = a.exp := by omega
  rw [val_eq_sm_mul]
  push_cast
  rw [mul_assoc, pow_mul_pow10, h2]

/-- Numeric comparison of decimals (Python `Decimal` comparison is by value),
computed on integer mantissas rescaled to a common exponent. -/
def le (a b : Dec) : Bool :=
  let e := min a.exp b.exp
  a.scaleAt e ≤ b.scaleAt e

/-- Numeric strict comparison of decimals. -/
def lt (a b : Dec) : Bool :=
  let e := min a.exp b.exp
  a.scaleAt e < b.scaleAt e

theorem le_iff (a b : Dec) : a.le b = true ↔ a.val ≤ b.val := by
  unfold le
  rw [← scaleAt_val a (min a.exp b.exp) (min_le_left _ _),
    ← scaleAt_val b (min a.exp b.exp) (min_le_right _ _)]
  rw [mul_le_mul_right (pow10_pos _)]
  simp

theorem lt_iff (a b : Dec) : a.lt b = true ↔ a.val < b.val := by
  unfold lt
  rw [← scaleAt_val a (min a.exp b.exp) (min_le_left _ _),
    ← scaleAt_val b (min a.exp b.exp) (min_le_right _ _)]
  rw [mul_lt_mul_right (pow10_pos _)]
  simp

theorem le_eq_false_iff (a b : Dec) : a.le b = false ↔ b.val < a.val := by
  rw [← not_le, ← le_iff]
  simp

/-- Whether the value of `a` is an exact integer multiple of the value of `p`
(for `p` of nonzero value): the model of the Python `Decimal` remainder-is-zero
test `a % p == 0`. -/
def isMulOf (a p : Dec) : Bool :=
  let e := min a.exp p.exp
  a.scaleAt e % p.scaleAt e == 0

theorem isMulOf_iff (a p : Dec) (hp : p.val ≠ 0) :
    a.isMulOf p = true ↔ ∃ k : ℤ, a.val = k * p.val := by
  unfold isMulOf
  set e := min a.exp p.exp with he
  have ha := scaleAt_val a e (min_le_left _ _)
  have hpe := scaleAt_val p e (min_le_right _ _)
  have hp0 : p.scaleAt e ≠ 0 := by
    intro h0
    apply hp
    rw [← hpe, h0]
    simp
  constructor
  · intro h
    have hdvd : p.scaleAt e ∣ a.scaleAt e := by
      have := beq_iff_eq.mp h
      exact Int.dvd_of_emod_eq_zero this
    obtain ⟨k, hk⟩ := hdvd
    refine ⟨k, ?_⟩
    rw [← ha, ← hpe, hk]
    push_cast
    ring
  · rintro ⟨k, hk⟩
    rw [← ha, ← hpe] at hk
    have hint : a.scaleAt e = k * p.scaleAt e := by
      have hr : ((a.scaleAt e : ℤ) : ℚ) * pow10 e = ((k * p.scaleAt e : ℤ) : ℚ) * pow10 e := by
        push_cast
        linear_combination hk
      exact_mod_cast mul_right_cancel₀ (ne_of_gt (pow10_pos e)) hr
    rw [beq_iff_eq, hint]
    exact Int.mul_emod_left k _

theorem pos_iff (p : Dec) (e : ℤ) (h : e ≤ p.exp) :
    0 < p.scaleAt e ↔ 0 < p.val := by
  rw [← scaleAt_val p e h]
  constructor
  · intro hpos
    have := pow10_pos e
    positivity
  · intro hpos
    by_contra hcon
    push_neg at hcon
    have : ((p.scaleAt e : ℤ) : ℚ) ≤ 0 := by exact_mod_cast hcon
    nlinarith [pow10_pos e]

end Dec

/-- Model of `build_temperature_range`: the `while current <= maximum` loop,
with the iteration count supplied as explicit fuel.  `rangeFuel` is an upper
bound on the number of iterations whenever the loop terminates
(`precision > 0`); when `precision ≤ 0` the Python loop would not terminate
for `minimum ≤ maximum`, and the model returns the prefix cut off at the
fuel bound (the claims only concern `precision > 0`). -/
def buildRangeAux (maximum precision : Dec) : ℕ → Dec → List Dec
  | 0, _ => []
  | fuel + 1, current =>
    if current.le maximum then
      current :: buildRangeAux maximum precision fuel (current.add precision)
    else []

/-- Fuel bound for the range loop, computed on rescaled integer mantissas:
`⌊(max-min)/precision⌋ + 1` iterations when the precision is positive. -/
def rangeFuel (minimum maximum precision : Dec) : ℕ :=
  let e := min (min minimum.exp maximum.exp) precision.exp
  let mp := precision.scaleAt e
  if 0 < mp then (((maximum.scaleAt e - minimum.scaleAt e).fdiv mp) + 1).toNat
  else 0

/-- Model of `build_temperature_range` from `src/learn.py`. -/
def build_temperature_range (minimum maximum precision : Dec) : List Dec :=
  buildRangeAux maximum precision (rangeFuel minimum maximum precision) minimum

/-- The ideal list of steps: `current, current+p, ..., current + n*p`. -/
def stepList (precision : Dec) : ℕ → Dec → List Dec
  | 0, current => [current]
  | n + 1, current => current :: stepList precision n (current.add precision)

theorem buildRangeAux_of_gt (maximum precision : Dec) (fuel : ℕ) (current : Dec)
    (h : maximum.val < current.val) :
    buildRangeAux maximum precision fuel current = [] := by
  have hfalse : current.le maximum = false := (Dec.le_eq_false_iff _ _).mpr h
  cases fuel with
  | zero => rfl
  | succ n => simp [buildRangeAux, hfalse]

theorem buildRangeAux_eq_stepList (maximum precision : Dec)
    (hp : 0 < precision.val) (n : ℕ) :
    ∀ (current : Dec) (fuel : ℕ),
      maximum.val = current.val + n * precision.val → n < fuel →
      buildRangeAux maximum precision fuel current = stepList precision n current := by
  induction n with
  | zero =>
    intro current fuel h hf
    obtain ⟨f, rfl⟩ : ∃ f, fuel = f + 1 := ⟨fuel - 1, by omega⟩
    have hle : current.le maximum = true := (Dec.le_iff _ _).mpr (by rw [h]; simp)
    simp only [buildRangeAux, hle, if_true, stepList]
    rw [buildRangeAux_of_gt]
    rw [Dec.val_add, h]
    simp [hp]
  | succ m ih =>
    intro current fuel h hf
    obtain ⟨f, rfl⟩ : ∃ f, fuel = f + 1 := ⟨fuel - 1, by omega⟩
    have hle : current.le maximum = true := (Dec.le_iff _ _).mpr (by
      rw [h]
      nlinarith [hp])
    simp only [buildRangeAux, hle, if_true, stepList]
    rw [ih (current.add precision) f _ (by omega)]
    rw [Dec.val_add, h]
    push_cast
    ring

theorem rangeFuel_eq (minimum maximum precision : Dec) (n : ℕ)
    (hp : 0 < precision.val) (h : maximum.val - minimum.val = n * precision.val) :
    rangeFuel minimum maximum precision = n + 1 := by
  unfold rangeFuel
  set e := min (min minimum.exp maximum.exp) precision.exp with he
  have hemin : e ≤ minimum.exp := le_trans (min_le_left _ _) (min_le_left _ _)
  have hemax : e ≤ maximum.exp := le_trans (min_le_left _ _) (min_le_right _ _)
  have hep : e ≤ precision.exp := min_le_right _ _
  have hmp : 0 < precision.scaleAt e := (Dec.pos_iff precision e hep).mpr hp
  have hscaled : maximum.scaleAt e - minimum.scaleAt e = n * precision.scaleAt e := by
    have hq : ((maximum.scaleAt e - minimum.scaleAt e : ℤ) : ℚ) * Dec.pow10 e =
        ((n * precision.scaleAt e : ℤ) : ℚ) * Dec.pow10 e := by
      push_cast
      rw [sub_mul]
      rw [Dec.scaleAt_val maximum e hemax, Dec.scaleAt_val minimum e hemin]
      rw [mul_assoc, Dec.scaleAt_val precision e hep, h]
    have := mul_right_cancel₀ (ne_of_gt (Dec.pow10_pos e)) hq
    exact_mod_cast this
  rw [if_pos hmp, hscaled, Int.mul_fdiv_cancel _ (ne_of_gt hmp)]
  omega

theorem stepList_length (precision : Dec) (n : ℕ) (current : Dec) :
    (stepList precision n current).length = n + 1 := by
  induction n generalizing current with
  | zero => rfl
  | succ m ih => simp [stepList, ih]

theorem stepList_head (precision : Dec) (n : ℕ) (current : Dec) :
    (stepList precision n current).head? = some current := by
  cases n <;> rfl

theorem stepList_getLast_val (precision : Dec) (n : ℕ) (current : Dec) :
    ((stepList precision n current).map Dec.val).getLast? =
      some (current.val + n * precision.val) := by
  induction n generalizing current with
  | zero => simp [stepList]
  | succ m ih =>
    have hunf : stepList precision (m + 1) current =
        current :: stepList precision m (current.add precision) := rfl
    rw [hunf, List.map_cons]
    cases m with
    | zero =>
      simp [stepList, Dec.val_add]
    | succ k =>
      have hunf2 : stepList precision (k + 1) (current.add precision) =
          (current.add precision) ::
            stepList precision k ((current.add precision).add precision) := rfl
      rw [hunf2, List.map_cons, List.getLast?_cons_cons, ← List.map_cons, ← hunf2, ih]
      congr 1
      rw [Dec.val_add]
      push_cast
      ring

theorem stepList_chain (precision : Dec) (hp : 0 < precision.val) (n : ℕ) (current : Dec) :
    List.Chain' (· < ·) ((stepList precision n current).map Dec.val) := by
  induction n generalizing current with
  | zero => simp [stepList]
  | succ m ih =>
    simp only [stepList, List.map_cons]
    refine List.Chain'.cons' (ih _) ?_
    intro y hy
    cases m with
    | zero =>
      simp [stepList] at hy
      rw [← hy, Dec.val_add]
      linarith
    | succ k =>
      simp [stepList] at hy
      rw [← hy, Dec.val_add]
      linarith

/-- C1: for `precision > 0`, `maximum ≥ minimum` and `(maximum - minimum)`
an exact multiple `n * precision` of the precision (the decimal remainder
check `(maximum - minimum) % precision == 0`), `build_temperature_range`
returns a strictly increasing sequence that starts at `minimum`, ends at
`maximum`, and has length `(maximum - minimum)/precision + 1 = n + 1`. -/
theorem build_temperature_range_spec (minimum maximum precision : Dec) (n : ℕ)
    (hp : 0 < precision.val)
    (h : maximum.val - minimum.val = n * precision.val) :
    (build_temperature_range minimum maximum precision).length = n + 1 ∧
    (build_temperature_range minimum maximum precision).head? = some minimum ∧
    ((build_temperature_range minimum maximum precision).map Dec.val).getLast? =
      some maximum.val ∧
    List.Chain' (· < ·)
      ((build_temperature_range minimum maximum precision).map Dec.val) := by
  have hfuel := rangeFuel_eq minimum maximum precision n hp h
  have heq : build_temperature_range minimum maximum precision =
      stepList precision n minimum := by
    unfold build_temperature_range
    rw [hfuel]
    exact buildRangeAux_eq_stepList maximum precision hp n minimum (n + 1)
      (by linarith [h]) (by omega)
  refine ⟨?_, ?_, ?_, ?_⟩
  · rw [heq, stepList_length]
  · rw [heq, stepList_head]
  · rw [heq, stepList_getLast_val]
    congr 1
    linarith [h]
  · rw [heq]
    exact stepList_chain precision hp n minimum

/-- Witness for C1 at `minimum = 16`, `maximum = 18`, `precision = 1`. -/
theorem build_temperature_range_spec_witness :
    (build_temperature_range ⟨false, 16, 0⟩ ⟨false, 18, 0⟩ ⟨false, 1, 0⟩).length = 3 ∧
    (build_temperature_range ⟨false, 16, 0⟩ ⟨false, 18, 0⟩ ⟨false, 1, 0⟩).head? =
      some ⟨false, 16, 0⟩ := by
  have h1 : (0 : ℚ) < (Dec.mk false 1 0).val := by
    simp [Dec.val, Dec.sm, Dec.pow10]
  have h2 : (Dec.mk false 18 0).val - (Dec.mk false 16 0).val =
      ((2 : ℕ) : ℚ) * (Dec.mk false 1 0).val := by
    simp [Dec.val, Dec.sm, Dec.pow10]
    norm_num
  have hmain := build_temperature_range_spec ⟨false, 16, 0⟩ ⟨false, 18, 0⟩
    ⟨false, 1, 0⟩ 2 h1 h2
  exact ⟨hmain.1, hmain.2.1⟩

/-! String primitives modelling the Python `str` methods the script uses
(`strip`, `lower`, `split(",")`), implemented on character lists. -/

/-- ASCII whitespace, as recognised by Python `str.strip()`. -/
def wsChar (c : Char) : Bool :=
  c = ' ' || c = '\t' || c = '\n' || c = '\r' || c = '\x0b' || c = '\x0c'

/-- Strip leading and trailing whitespace from a character list. -/
def trimChars (l : List Char) : List Char :=
  ((l.dropWhile wsChar).reverse.dropWhile wsChar).reverse

/-- Model of Python `str.strip()`. -/
def pyStrip (s : String) : String := String.mk (trimChars s.data)

/-- ASCII lower-casing of one character. -/
def lowerChar (c : Char) : Char :=
  if 'A' ≤ c && c ≤ 'Z' then Char.ofNat (c.toNat + 32) else c

/-- Model of Python `str.lower()` (ASCII range). -/
def pyLower (s : String) : String := String.mk (s.data.map lowerChar)

/-- Split a character list at commas: model of `str.split(",")`. -/
def splitComma : List Char → List (List Char)
  | [] => [[]]
  | c :: rest =>
    if c = ',' then [] :: splitComma rest
    else
      match splitComma rest with
      | [] => [[c]]
      | p :: ps => (c :: p) :: ps

/-- Model of `prompt_list` from `src/learn.py`: `raw` is the user response.
An empty stripped response reuses the stored values; otherwise the stripped
response is split at commas, each item is stripped, and empty items are
dropped. -/
def prompt_list (raw : String) (stored_values : List String) : List String :=
  let t := trimChars raw.data
  if t = [] then stored_values
  else (((splitComma t).map trimChars).filter (· ≠ [])).map String.mk

/-! Rendering of decimals: model of `temperature_to_string`, which applies
`format(value, "f")` and strips trailing zeros and a trailing point. -/

/-- The character of a decimal digit. -/
def digitChar (d : ℕ) : Char := Char.ofNat (48 + d)

/-- Little-endian base-10 digits, with explicit fuel (the number itself
suffices); kept executable by kernel reduction. -/
def digitsAuxF : ℕ → ℕ → List ℕ
  | 0, _ => []
  | fuel + 1, n => if n = 0 then [] else n % 10 :: digitsAuxF fuel (n / 10)

/-- Little-endian base-10 digits of a natural number. -/
def digitsLE (n : ℕ) : List ℕ := digitsAuxF n n

theorem digitsAuxF_eq (fuel : ℕ) : ∀ n : ℕ, n ≤ fuel → digitsAuxF fuel n = Nat.digits 10 n := by
  induction fuel with
  | zero =>
    intro n h
    interval_cases n
    simp [digitsAuxF, Nat.digits_zero]
  | succ f ih =>
    intro n h
    by_cases hn : n = 0
    · subst hn
      simp [digitsAuxF, Nat.digits_zero]
    · have hlt : n / 10 < n := Nat.div_lt_self (Nat.pos_of_ne_zero hn) (by norm_num)
      have : digitsAuxF (f + 1) n = n % 10 :: digitsAuxF f (n / 10) := by
        simp [digitsAuxF, hn]
      rw [this, ih (n / 10) (by omega),
        Nat.digits_def' (by norm_num : 1 < 10) (Nat.pos_of_ne_zero hn)]

theorem digitsLE_eq (n : ℕ) : digitsLE n = Nat.digits 10 n :=
  digitsAuxF_eq n n le_rfl

/-- Decimal string of a natural number (model of `str(n)` for the integer
part of a fixed-point rendering). -/
def intDigitsChars (n : ℕ) : List Char :=
  if n = 0 then ['0'] else ((digitsLE n).map digitChar).reverse

/-- Exactly `k` fraction digits of `r < 10^k`, zero-padded on the left. -/
def fracDigitsChars (r k : ℕ) : List Char :=
  (((digitsLE r) ++ List.replicate (k - (digitsLE r).length) 0).map digitChar).reverse

/-- Fixed-point rendering of an unsigned decimal `coeff * 10^e`: the model of
`format(value, "f")` without the sign. -/
def fixedChars (coeff : ℕ) (e : ℤ) : List Char :=
  if 0 ≤ e then intDigitsChars (coeff * 10 ^ e.toNat)
  else
    intDigitsChars (coeff / 10 ^ (-e).toNat) ++
      '.' :: fracDigitsChars (coeff % 10 ^ (-e).toNat) (-e).toNat

/-- Drop trailing zero characters: model of `text.rstrip("0")`. -/
def rstripZeros (l : List Char) : List Char := (l.reverse.dropWhile (· = '0')).reverse

/-- Drop trailing dots: model of `text.rstrip(".")`. -/
def rstripDot (l : List Char) : List Char := (l.reverse.dropWhile (· = '.')).reverse

/-- Model of `temperature_to_string` from `src/learn.py`: fixed-point
rendering of the decimal, with trailing zeros and a trailing decimal point
stripped whenever the text contains a point. -/
def temperature_to_string (d : Dec) : String :=
  let text := (if d.neg then ['-'] else []) ++ fixedChars d.coeff d.exp
  String.mk (if '.' ∈ text then rstripDot (rstripZeros text) else text)

/-- Numeric value of one digit character. -/
def charVal (c : Char) : ℕ := c.toNat - 48

/-- Value of a big-endian digit-character list. -/
def digitsToNat (l : List Char) : ℕ := l.foldl (fun acc c => 10 * acc + charVal c) 0

/-- Value of an unsigned fixed-point character string. -/
def parsePosChars (l : List Char) : ℚ :=
  match l.dropWhile (· ≠ '.') with
  | [] => (digitsToNat l : ℚ)
  | _ :: fp =>
    (digitsToNat (l.takeWhile (· ≠ '.')) : ℚ) + (digitsToNat fp : ℚ) / 10 ^ fp.length

/-- Modelled from the spec: the external `Decimal` string constructor
(`parseTemperature` in the round-trip property), restricted to the plain
fixed-point forms that `temperature_to_string` produces; yields the numeric
value of the text. -/
def parseTemperature (s : String) : ℚ :=
  match s.data with
  | '-' :: rest => -(parsePosChars rest)
  | l => parsePosChars l

/-! Model of `prompt_temperature` from `src/learn.py`. -/

/-- Negation of a decimal (`Decimal.__neg__`); only its numeric value is
used by the script (inside the remainder test on `value - minimum`). -/
def Dec.negate (d : Dec) : Dec := ⟨!d.neg, d.coeff, d.exp⟩

theorem Dec.val_negate (d : Dec) : d.negate.val = -d.val := by
  unfold val sm negate
  cases h : d.neg <;> simp [h]

/-- Subtraction of decimals (`value - minimum` in the source). -/
def Dec.sub (a b : Dec) : Dec := a.add b.negate

theorem Dec.val_sub (a b : Dec) : (a.sub b).val = a.val - b.val := by
  unfold sub
  rw [val_add, val_negate]
  ring

/-- The decimal zero literal the precision is compared against. -/
def decZero : Dec := ⟨false, 0, 0⟩

theorem decZero_val : decZero.val = 0 := by
  simp [decZero, Dec.val, Dec.sm]

/-- One user response at a temperature prompt: an empty line (accept the
default), a malformed number (`InvalidOperation`), or a parsed decimal. -/
inductive TempResp where
  | empty
  | invalid
  | value (v : Dec)

/-- The validation chain of one `prompt_temperature` round, in source
order: `precision <= 0`, `value % precision != 0`, `value < minimum`,
`(value - minimum) % precision != 0`; any failure re-prompts (`retry`),
otherwise the value is returned. -/
def tempChecks (precision : Dec) (minimum : Option Dec) (value : Dec)
    (retry : Option Dec) : Option Dec :=
  if precision.le decZero then retry
  else if !value.isMulOf precision then retry
  else
    match minimum with
    | none => some value
    | some m =>
      if value.lt m then retry
      else if !(value.sub m).isMulOf precision then retry
      else some value

/-- Model of `prompt_temperature`: processes the responses in order; every
rejection re-prompts (recurses); an exhausted response list means the loop
is still prompting (`none`).  An empty response means the default; a
malformed one (`InvalidOperation`) re-prompts before any check. -/
def prompt_temperature (default precision : Dec) (minimum : Option Dec) :
    List TempResp → Option Dec
  | [] => none
  | r :: rest =>
    let retry := prompt_temperature default precision minimum rest
    match r with
    | .empty => tempChecks precision minimum default retry
    | .invalid => retry
    | .value v => tempChecks precision minimum v retry

/-! Model of the mutable `commands` tree and of `ACLearningSession`.

Python dicts are insertion-ordered; they are modelled as association lists
in which setting an existing key updates the value in place and setting a
new key appends it.  A value in the `commands` tree is either a command
string or a nested dict. -/

/-- A value in the `commands` tree. -/
inductive Node where
  | leaf (cmd : String)
  | dict (entries : List (String × Node))
  deriving Repr

/-- An insertion-ordered Python dict of `commands`-tree values. -/
abbrev PyDict := List (String × Node)

/-- Dict lookup. -/
def dget : PyDict → String → Option Node
  | [], _ => none
  | (k, v) :: rest, key => if k = key then some v else dget rest key

/-- Dict assignment: update in place if the key exists, else append. -/
def dset : PyDict → String → Node → PyDict
  | [], key, val => [(key, val)]
  | (k, v) :: rest, key, val =>
    if k = key then (k, val) :: rest else (k, v) :: dset rest key val

/-- Model of `dict.setdefault`: returns the updated dict and the entry. -/
def dsetdefault (d : PyDict) (key : String) (dflt : Node) : PyDict × Node :=
  match dget d key with
  | some cur => (d, cur)
  | none => (d ++ [(key, dflt)], dflt)

/-- Read the target container of a cell: the operation-mode entry itself
when `sw = none` (flat layout), else the swing entry nested inside it. -/
def getTarget (c : PyDict) (op : String) (sw : Option String) : Option Node :=
  match sw with
  | none => dget c op
  | some w =>
    match dget c op with
    | some (Node.dict fe) => dget fe w
    | _ => none

/-- Apply `f` to the dict stored at a cell target (used for `.clear()` and
for the per-temperature assignments through the alias). -/
def updTarget (c : PyDict) (op : String) (sw : Option String)
    (f : PyDict → PyDict) : PyDict :=
  match sw with
  | none =>
    match dget c op with
    | some (Node.dict d) => dset c op (.dict (f d))
    | _ => c
  | some w =>
    match dget c op with
    | some (Node.dict fe) =>
      match dget fe w with
      | some (Node.dict d) => dset c op (.dict (dset fe w (.dict (f d))))
      | _ => c
    | _ => c

/-- The mutable state of `ACLearningSession` together with the fields of the
loaded document that the session reads or writes, plus bookkeeping counters
into the interaction oracles and a trace of per-temperature captures. -/
structure SState where
  commands : PyDict
  operationModesDoc : List String
  fanModesDoc : List String
  swingModesDoc : List String
  minT : Dec
  maxT : Dec
  precision : Dec
  skip_swing_learning : Bool
  auto_resume : Bool
  skipIdx : ℕ
  prepIdx : ℕ
  capIdx : ℕ
  trace : List (String × String × Option String × Dec)

/-- One poll of `device.check_data()`: either data is available (already
transport-encoded, since the base64 encoding is an external collaborator),
or a transient `ReadError`/`StorageError` that the loop retries. -/
inductive PollOutcome where
  | ready (encoded : String)
  | transient

/-- The interaction environment: user responses and device behaviour.
Prompt loops that only re-ask until a syntactically valid answer arrives
(`prompt_yes_no`) are abstracted by the final boolean answer.  Indexed
oracles are consumed in program order via the counters in `SState`. -/
structure Env where
  resumeAns : Bool
  opRaw : String
  fanRaw : String
  swingSkipAns : Bool
  swingRaw : String
  minResponses : List TempResp
  maxResponses : List TempResp
  skipAns : ℕ → Bool
  prepAns : ℕ → String
  deviceRaise : ℕ → Bool
  polls : ℕ → ℕ → PollOutcome

/-- Outcome of a session fragment: normal value, `sys.exit(0)` (the "n"
answer at a prepare prompt), an uncaught exception, or still blocked on
input (an interactive loop whose modelled responses ran out — the process
has not ended). -/
inductive Res (α : Type) where
  | ok (a : α) (s : SState)
  | exit (s : SState)
  | raised (s : SState)
  | stuck (s : SState)

/-- Sequencing of session fragments. -/
def Res.bind {α β : Type} : Res α → (α → SState → Res β) → Res β
  | .ok a s, f => f a s
  | .exit s, _ => .exit s
  | .raised s, _ => .raised s
  | .stuck s, _ => .stuck s

/-- The session state at the end of a fragment, whatever the outcome. -/
def Res.state {α : Type} : Res α → SState
  | .ok _ s => s
  | .exit s => s
  | .raised s => s
  | .stuck s => s

/-- Model of `_should_skip_existing_entry`: automatic in auto-resume mode,
otherwise the user's answer (default no). -/
def shouldSkip (env : Env) (s : SState) : Bool × SState :=
  if s.auto_resume then (true, s)
  else (env.skipAns s.skipIdx, { s with skipIdx := s.skipIdx + 1 })

/-- The polling loop of `_learn_command`: polls every 0.5 s while
`time.time() - start < 30`, so 60 polls; a transient error retries, data
ends the loop, and an exhausted budget returns the empty-string sentinel
(after printing a diagnostic). -/
def learnResultAux (polls : ℕ → PollOutcome) : ℕ → ℕ → String
  | 0, _ => ""
  | fuel + 1, i =>
    match polls i with
    | .ready d => d
    | .transient => learnResultAux polls fuel (i + 1)

/-- Model of the result of `_learn_command` for one capture call. -/
def learnResult (polls : ℕ → PollOutcome) : String := learnResultAux polls 60 0

/-- Model of `_learn_command`: the device may raise an uncaught exception
(e.g. in `enter_learning`); otherwise the polling loop runs. -/
def learnCommand (env : Env) (s : SState) : Res String :=
  let k := s.capIdx
  let s := { s with capIdx := k + 1 }
  if env.deviceRaise k then .raised s
  else .ok (learnResult (env.polls k)) s

/-- The per-temperature capture loop of `_capture_commands`: for each
temperature, capture one command and store it under the temperature label
in the target container; records each capture in the trace. -/
def captureTemps (env : Env) (op fan : String) (sw : Option String) :
    List Dec → SState → Res Unit
  | [], s => .ok () s
  | t :: rest, s =>
    let s := { s with trace := s.trace ++ [(op, fan, sw, t)] }
    (learnCommand env s).bind fun cmd s1 =>
      let c2 := updTarget s1.commands op sw
        (fun d => dset d (temperature_to_string t) (.leaf cmd))
      captureTemps env op fan sw rest { s1 with commands := c2 }

/-- Model of `_capture_commands`.  An empty range would raise `IndexError`
at `temperature_values[0]`.  The prepare-prompt response is stripped and
lower-cased; "n" exits the process, "s" captures one command and replicates
it under every temperature label, anything else captures per temperature.
The target container is cleared first; `.clear()` on a string-valued entry
raises `AttributeError`. -/
def capture_commands (env : Env) (op fan : String) (sw : Option String)
    (targetIsLeaf : Bool) (temps : List Dec) (s : SState) : Res Unit :=
  match temps with
  | [] => .raised s
  | _ :: _ =>
    let resp := pyLower (pyStrip (env.prepAns s.prepIdx))
    let s := { s with prepIdx := s.prepIdx + 1 }
    if resp = "n" then .exit s
    else if targetIsLeaf then .raised s
    else
      let s := { s with commands := updTarget s.commands op sw (fun _ => []) }
      if resp = "s" then
        (learnCommand env s).bind fun cmd s1 =>
          let c2 := updTarget s1.commands op sw
            (fun d => temps.foldl
              (fun acc t => dset acc (temperature_to_string t) (.leaf cmd)) d)
          .ok () { s1 with commands := c2 }
      else captureTemps env op fan sw temps s

/-- The flat-layout case of `_learn_for_mode`: the target container is the
operation-mode entry itself; a non-empty container asks whether to skip. -/
def learnFlat (env : Env) (op fan : String) (fanNode : Node)
    (temps : List Dec) (s : SState) : Res Unit :=
  match fanNode with
  | .leaf str =>
    if str ≠ "" then
      let sk := shouldSkip env s
      if sk.1 then .ok () sk.2
      else capture_commands env op fan none true temps sk.2
    else capture_commands env op fan none true temps s
  | .dict d =>
    if d.isEmpty then capture_commands env op fan none false temps s
    else
      let sk := shouldSkip env s
      if sk.1 then .ok () sk.2
      else capture_commands env op fan none false temps sk.2

/-- The swing-nested case of `_learn_for_mode`, after
`fan_entry.setdefault(swing_mode, {})` has run: `swNode` is the swing
entry, which is the target container. -/
def learnSwing (env : Env) (op fan w : String) (swNode : Node)
    (temps : List Dec) (s : SState) : Res Unit :=
  match swNode with
  | .leaf str =>
    if str ≠ "" then
      let sk := shouldSkip env s
      if sk.1 then .ok () sk.2
      else capture_commands env op fan (some w) true temps sk.2
    else capture_commands env op fan (some w) true temps s
  | .dict d =>
    if d.isEmpty then capture_commands env op fan (some w) false temps s
    else
      let sk := shouldSkip env s
      if sk.1 then .ok () sk.2
      else capture_commands env op fan (some w) false temps sk.2

/-- `_learn_for_mode` after `commands.setdefault(operation_mode, {})` has
run: `fanNode` is the operation-mode entry. -/
def learnForModeWith (env : Env) (op fan : String) (swing : Option String)
    (fanNode : Node) (temps : List Dec) (s : SState) : Res Unit :=
  match swing with
  | none => learnFlat env op fan fanNode temps s
  | some w =>
    if s.skip_swing_learning then learnFlat env op fan fanNode temps s
    else
      match fanNode with
      | .leaf _ => .raised s
      | .dict fe =>
        let swd := dsetdefault fe w (.dict [])
        learnSwing env op fan w swd.2 temps
          { s with commands := dset s.commands op (.dict swd.1) }

/-- Model of `_learn_for_mode`.  `commands.setdefault(operation_mode, {})`
runs first; the swing entry is created only when swing learning is active,
in which case `fan_entry.setdefault(swing_mode, {})` on a string-valued
entry would raise `AttributeError`. -/
def learn_for_mode (env : Env) (op fan : String) (swing : Option String)
    (temps : List Dec) (s : SState) : Res Unit :=
  let sd := dsetdefault s.commands op (.dict [])
  learnForModeWith env op fan swing sd.2 temps { s with commands := sd.1 }

/-- The resolved learning configuration (`LearningConfig` in the source). -/
structure LearningConfig where
  operation_modes : List String
  fan_modes : List String
  swing_modes : List (Option String)
  deriving Repr

/-- Innermost loop of `_learn_all_commands`: after each triple the working
temperature list is reversed; the (possibly reversed) list is threaded on. -/
def walkSwings (env : Env) (op fan : String) :
    List (Option String) → List Dec → SState → Res (List Dec)
  | [], temps, s => .ok temps s
  | sw :: rest, temps, s =>
    (learn_for_mode env op fan sw temps s).bind fun _ s1 =>
      walkSwings env op fan rest temps.reverse s1

/-- Middle loop of `_learn_all_commands` (fan modes). -/
def walkFans (env : Env) (op : String) (swings : List (Option String)) :
    List String → List Dec → SState → Res (List Dec)
  | [], temps, s => .ok temps s
  | fan :: rest, temps, s =>
    (walkSwings env op fan swings temps s).bind fun temps1 s1 =>
      walkFans env op swings rest temps1 s1

/-- Outer loop of `_learn_all_commands` (operation modes). -/
def walkOps (env : Env) (fans : List String) (swings : List (Option String)) :
    List String → List Dec → SState → Res (List Dec)
  | [], temps, s => .ok temps s
  | op :: rest, temps, s =>
    (walkFans env op swings fans temps s).bind fun temps1 s1 =>
      walkOps env fans swings rest temps1 s1

/-- Model of `_learn_all_commands`: walk the product with the operation
modes outermost, fan modes in the middle, swing modes innermost. -/
def learn_all_commands (env : Env) (config : LearningConfig)
    (temperature_values : List Dec) (s : SState) : Res (List Dec) :=
  walkOps env config.fan_modes config.swing_modes config.operation_modes
    temperature_values s

/-- Model of `_clear_swing_modes`. -/
def clear_swing_modes (s : SState) : SState :=
  { s with skip_swing_learning := true, swingModesDoc := [] }

/-- Model of `_resolve_swing_modes`: two near-identical branches on whether
the document already lists swing modes (they differ only in the prompt
default, which the answer oracle absorbs). -/
def resolve_swing_modes (env : Env) (s : SState) :
    List (Option String) × SState :=
  let existing := s.swingModesDoc
  if existing = [] then
    if env.swingSkipAns then ([none], clear_swing_modes s)
    else
      let s := { s with skip_swing_learning := false }
      let sm := prompt_list env.swingRaw existing
      if sm ≠ [] then (sm.map some, { s with swingModesDoc := sm })
      else ([none], clear_swing_modes s)
  else
    if env.swingSkipAns then ([none], clear_swing_modes s)
    else
      let s := { s with skip_swing_learning := false }
      let sm := prompt_list env.swingRaw existing
      if sm ≠ [] then (sm.map some, { s with swingModesDoc := sm })
      else ([none], clear_swing_modes s)

/-- Model of `_build_learning_config`. -/
def build_learning_config (env : Env) (s : SState) :
    LearningConfig × SState :=
  if s.auto_resume then
    (⟨s.operationModesDoc, s.fanModesDoc,
      if s.skip_swing_learning then [none] else s.swingModesDoc.map some⟩, s)
  else
    let ops := prompt_list env.opRaw s.operationModesDoc
    let fans := prompt_list env.fanRaw s.fanModesDoc
    let sw := resolve_swing_modes env s
    (⟨ops, fans, sw.1⟩, sw.2)

/-- Model of `_prompt_for_auto_resume`: only asked when `commands` is
non-empty (truthy). -/
def prompt_for_auto_resume (env : Env) (s : SState) : SState :=
  if s.commands.isEmpty then s else { s with auto_resume := env.resumeAns }

/-- Model of `_prepare_temperature_range`: prompt for both bounds (the
stored bounds are the defaults), store them back into the document, and
build the temperature range. -/
def prepare_temperature_range (env : Env) (s : SState) : Res (List Dec) :=
  match prompt_temperature s.minT s.precision none env.minResponses with
  | none => .stuck s
  | some minimum =>
    match prompt_temperature s.maxT s.precision (some minimum) env.maxResponses with
    | none => .stuck s
    | some maximum =>
      .ok (build_temperature_range minimum maximum s.precision)
        { s with minT := minimum, maxT := maximum }

/-- Model of `_learn_off_command`: one unconditional capture stored under
the reserved top-level key. -/
def learn_off_command (env : Env) (s : SState) : Res Unit :=
  (learnCommand env s).bind fun cmd s1 =>
    .ok () { s1 with commands := dset s1.commands "off" (.leaf cmd) }

/-- Model of `ACLearningSession.run`. -/
def runSession (env : Env) (s : SState) : Res Unit :=
  let s := prompt_for_auto_resume env s
  let cfg := build_learning_config env s
  (prepare_temperature_range env cfg.2).bind fun temps s1 =>
    (learn_all_commands env cfg.1 temps s1).bind fun _ s2 =>
      learn_off_command env s2

/-- The document fields that `json.dump(data, ...)` persists (restricted to
those the session can touch). -/
structure SavedDoc where
  commands : PyDict
  operationModes : List String
  fanModes : List String
  swingModes : List String
  minTemperature : Dec
  maxTemperature : Dec

/-- The document as it stands in a given session state. -/
def docOf (s : SState) : SavedDoc :=
  ⟨s.commands, s.operationModesDoc, s.fanModesDoc, s.swingModesDoc,
    s.minT, s.maxT⟩

/-- Model of `main`'s `try: session.run() finally: json.dump(data, ...)`:
the in-memory document is written back whichever way `run` ends — normal
completion, `SystemExit` from `sys.exit(0)`, or an uncaught exception.  A
session still blocked on input has not ended, so nothing is saved yet. -/
def mainSaved (env : Env) (s : SState) : Option SavedDoc :=
  match runSession env s with
  | .ok _ s1 => some (docOf s1)
  | .exit s1 => some (docOf s1)
  | .raised s1 => some (docOf s1)
  | .stuck _ => none

/-! Theorems about mode resolution and the persistence guarantee. -/

theorem map_some_ne_singleton_none (xs : List String) :
    xs.map some ≠ [(none : Option String)] := by
  cases xs <;> simp

/-- C3: on every path through mode resolution (auto-resume or fresh, with or
without stored swing modes, for any user responses), mode selection ends
with `skip_swing_learning = true` iff the resolved swing-mode list is
`[None]`.  The hypothesis is the constructor invariant
`skip_swing_learning = not data.get("swingModes")` that holds when the
session starts. -/
theorem mode_selection_swing_invariant (env : Env) (s : SState)
    (h : s.skip_swing_learning = s.swingModesDoc.isEmpty) :
    ((build_learning_config env s).2.skip_swing_learning = true ↔
      (build_learning_config env s).1.swing_modes = [none]) := by
  unfold build_learning_config resolve_swing_modes clear_swing_modes
  by_cases har : s.auto_resume
  · simp only [if_pos har]
    by_cases hsk : s.skip_swing_learning
    · simp [hsk]
    · simp [hsk, map_some_ne_singleton_none]
  · simp only [if_neg har, ite_self]
    by_cases hskip : env.swingSkipAns
    · simp [hskip]
    · simp only [if_neg hskip]
      by_cases hsm : prompt_list env.swingRaw s.swingModesDoc ≠ []
      · simp [hsm, map_some_ne_singleton_none]
      · simp [hsm]

/-- Witness for C3: a fresh path with no stored swing modes and the skip
answer "yes" ends with the flag set and the swing list `[None]`. -/
theorem mode_selection_swing_invariant_witness :
    ((build_learning_config
        ⟨false, "", "", true, "", [], [], fun _ => false, fun _ => "",
          fun _ => false, fun _ _ => .transient⟩
        ⟨[], [], [], [], ⟨false, 16, 0⟩, ⟨false, 30, 0⟩, ⟨false, 1, 0⟩,
          true, false, 0, 0, 0, []⟩).2.skip_swing_learning = true ↔
      (build_learning_config
        ⟨false, "", "", true, "", [], [], fun _ => false, fun _ => "",
          fun _ => false, fun _ _ => .transient⟩
        ⟨[], [], [], [], ⟨false, 16, 0⟩, ⟨false, 30, 0⟩, ⟨false, 1, 0⟩,
          true, false, 0, 0, 0, []⟩).1.swing_modes = [none]) :=
  mode_selection_swing_invariant _ _ (by rfl)

/-- The initial state of the C2 abort scenario: empty document with stored
bounds 16..30 and precision 1. -/
def stC2w : SState :=
  { commands := [], operationModesDoc := [], fanModesDoc := [],
    swingModesDoc := [], minT := ⟨false, 16, 0⟩, maxT := ⟨false, 30, 0⟩,
    precision := ⟨false, 1, 0⟩, skip_swing_learning := true,
    auto_resume := false, skipIdx := 0, prepIdx := 0, capIdx := 0,
    trace := [] }

/-- The environment of the C2 abort scenario: two operation modes, one fan
mode, swing skipped, range 16..17, captures succeed, and the user answers
"n" at the second prepare prompt. -/
def envC2w : Env :=
  { resumeAns := false, opRaw := "cool,heat", fanRaw := "auto",
    swingSkipAns := true, swingRaw := "",
    minResponses := [.value ⟨false, 16, 0⟩],
    maxResponses := [.value ⟨false, 17, 0⟩],
    skipAns := fun _ => false,
    prepAns := fun i => if i = 1 then "n" else "y",
    deviceRaise := fun _ => false,
    polls := fun k _ => .ready (if k = 0 then "A0" else "A1") }

/-- C2: whichever way the session ends — normal completion of `run`, the
"n" answer at a prepare prompt (`sys.exit(0)` mid-walk), or an uncaught
exception during the walk — `main`'s `finally` block writes the in-memory
document back; in particular, in the concrete abort scenario everything
captured before the abort (the full "cool" cell, and the empty "heat"
entry created by `setdefault`) is saved. -/
theorem persist_on_every_exit (env : Env) (s : SState) :
    (∀ s1, runSession env s = .ok () s1 → mainSaved env s = some (docOf s1)) ∧
    (∀ s1, runSession env s = .exit s1 → mainSaved env s = some (docOf s1)) ∧
    (∀ s1, runSession env s = .raised s1 → mainSaved env s = some (docOf s1)) ∧
    mainSaved envC2w stC2w = some
      ⟨[("cool", .dict [("16", .leaf "A0"), ("17", .leaf "A1")]),
        ("heat", .dict [])],
        [], [], [], ⟨false, 16, 0⟩, ⟨false, 17, 0⟩⟩ := by
  refine ⟨?_, ?_, ?_, ?_⟩
  · intro s1 h
    simp [mainSaved, h]
  · intro s1 h
    simp [mainSaved, h]
  · intro s1 h
    simp [mainSaved, h]
  · rfl

/-- Witness for C2: the abort scenario ends in the `exit` outcome, and the
theorem applied to it shows the saved document is the document at exit. -/
theorem persist_on_every_exit_witness :
    mainSaved envC2w stC2w = some (docOf ((runSession envC2w stC2w).state)) :=
  (persist_on_every_exit envC2w stC2w).2.1 ((runSession envC2w stC2w).state)
    (by rfl)


/-! Invariance of the stored temperature bounds over the matrix walk, and
preservation of the working range's contents under the reversals. -/

theorem Res.bind_state_eq {α β γ : Type} (g : SState → γ) (s0 : SState)
    (r : Res α) (f : α → SState → Res β)
    (h1 : g r.state = g s0)
    (h2 : ∀ a s1, r = .ok a s1 → g ((f a s1).state) = g s1) :
    g ((r.bind f).state) = g s0 := by
  cases r with
  | ok a s1 => exact (h2 a s1 rfl).trans h1
  | exit s1 => exact h1
  | raised s1 => exact h1
  | stuck s1 => exact h1

/-- The document's stored temperature bounds. -/
def boundsOf (s : SState) : Dec × Dec := (s.minT, s.maxT)

theorem learnCommand_bounds (env : Env) (s : SState) :
    boundsOf ((learnCommand env s).state) = boundsOf s := by
  unfold learnCommand
  by_cases h : env.deviceRaise s.capIdx <;> simp [h, Res.state, boundsOf]

theorem captureTemps_bounds (env : Env) (op fan : String) (sw : Option String)
    (temps : List Dec) : ∀ s : SState,
    boundsOf ((captureTemps env op fan sw temps s).state) = boundsOf s := by
  induction temps with
  | nil =>
    intro s
    rfl
  | cons t rest ih =>
    intro s
    refine Res.bind_state_eq boundsOf s _ _ ?_ ?_
    · exact learnCommand_bounds env _
    · intro a s1 _
      exact ih _

theorem capture_commands_bounds (env : Env) (op fan : String)
    (sw : Option String) (isLeaf : Bool) (temps : List Dec) (s : SState) :
    boundsOf ((capture_commands env op fan sw isLeaf temps s).state) =
      boundsOf s := by
  unfold capture_commands
  cases temps with
  | nil => rfl
  | cons t rest =>
    by_cases h1 : pyLower (pyStrip (env.prepAns s.prepIdx)) = "n"
    · simp only [h1, if_pos rfl]
      rfl
    · simp only [if_neg h1]
      cases isLeaf with
      | true => rfl
      | false =>
        simp only [Bool.false_eq_true, if_false]
        by_cases h3 : pyLower (pyStrip (env.prepAns s.prepIdx)) = "s"
        · simp only [h3, if_pos rfl]
          refine Res.bind_state_eq boundsOf s _ _ ?_ ?_
          · exact learnCommand_bounds env _
          · intro a s1 _
            rfl
        · simp only [if_neg h3]
          exact captureTemps_bounds env op fan sw (t :: rest) _

theorem shouldSkip_snd_bounds (env : Env) (s : SState) :
    boundsOf (shouldSkip env s).2 = boundsOf s := by
  unfold shouldSkip
  split <;> rfl

theorem learnFlat_bounds (env : Env) (op fan : String) (fanNode : Node)
    (temps : List Dec) (s : SState) :
    boundsOf ((learnFlat env op fan fanNode temps s).state) = boundsOf s := by
  unfold learnFlat
  cases fanNode with
  | leaf str =>
    dsimp only
    split
    · split
      · exact shouldSkip_snd_bounds env s
      · exact (capture_commands_bounds env op fan none true temps _).trans
          (shouldSkip_snd_bounds env s)
    · exact capture_commands_bounds env op fan none true temps s
  | dict d =>
    dsimp only
    split
    · exact capture_commands_bounds env op fan none false temps s
    · split
      · exact shouldSkip_snd_bounds env s
      · exact (capture_commands_bounds env op fan none false temps _).trans
          (shouldSkip_snd_bounds env s)

theorem learnSwing_bounds (env : Env) (op fan w : String) (swNode : Node)
    (temps : List Dec) (s : SState) :
    boundsOf ((learnSwing env op fan w swNode temps s).state) = boundsOf s := by
  unfold learnSwing
  cases swNode with
  | leaf str =>
    dsimp only
    split
    · split
      · exact shouldSkip_snd_bounds env s
      · exact (capture_commands_bounds env op fan (some w) true temps _).trans
          (shouldSkip_snd_bounds env s)
    · exact capture_commands_bounds env op fan (some w) true temps s
  | dict d =>
    dsimp only
    split
    · exact capture_commands_bounds env op fan (some w) false temps s
    · split
      · exact shouldSkip_snd_bounds env s
      · exact (capture_commands_bounds env op fan (some w) false temps _).trans
          (shouldSkip_snd_bounds env s)

theorem learnForModeWith_bounds (env : Env) (op fan : String)
    (swing : Option String) (fanNode : Node) (temps : List Dec) (s : SState) :
    boundsOf ((learnForModeWith env op fan swing fanNode temps s).state) =
      boundsOf s := by
  unfold learnForModeWith
  cases swing with
  | none => exact learnFlat_bounds env op fan fanNode temps s
  | some w =>
    dsimp only
    split
    · exact learnFlat_bounds env op fan fanNode temps s
    · cases fanNode with
      | leaf cmd => rfl
      | dict fe => exact learnSwing_bounds env op fan w _ temps _

theorem learn_for_mode_bounds (env : Env) (op fan : String)
    (swing : Option String) (temps : List Dec) (s : SState) :
    boundsOf ((learn_for_mode env op fan swing temps s).state) = boundsOf s := by
  unfold learn_for_mode
  exact learnForModeWith_bounds env op fan swing _ temps _

theorem walkSwings_bounds (env : Env) (op fan : String)
    (swings : List (Option String)) : ∀ (temps : List Dec) (s : SState),
    boundsOf ((walkSwings env op fan swings temps s).state) = boundsOf s := by
  induction swings with
  | nil =>
    intro temps s
    rfl
  | cons sw rest ih =>
    intro temps s
    refine Res.bind_state_eq boundsOf s _ _ ?_ ?_
    · exact learn_for_mode_bounds env op fan sw temps s
    · intro a s1 _
      exact ih temps.reverse s1

theorem walkFans_bounds (env : Env) (op : String)
    (swings : List (Option String)) (fans : List String) :
    ∀ (temps : List Dec) (s : SState),
    boundsOf ((walkFans env op swings fans temps s).state) = boundsOf s := by
  induction fans with
  | nil =>
    intro temps s
    rfl
  | cons fan rest ih =>
    intro temps s
    refine Res.bind_state_eq boundsOf s _ _ ?_ ?_
    · exact walkSwings_bounds env op fan swings temps s
    · intro t1 s1 _
      exact ih t1 s1

theorem walkOps_bounds (env : Env) (fans : List String)
    (swings : List (Option String)) (ops : List String) :
    ∀ (temps : List Dec) (s : SState),
    boundsOf ((walkOps env fans swings ops temps s).state) = boundsOf s := by
  induction ops with
  | nil =>
    intro temps s
    rfl
  | cons op rest ih =>
    intro temps s
    refine Res.bind_state_eq boundsOf s _ _ ?_ ?_
    · exact walkFans_bounds env op swings fans temps s
    · intro t1 s1 _
      exact ih t1 s1

/-- The temperature list a completed walk hands back, if it completed. -/
def Res.okTemps : Res (List Dec) → Option (List Dec)
  | .ok t _ => some t
  | _ => none

theorem walkSwings_perm (env : Env) (op fan : String)
    (swings : List (Option String)) : ∀ (temps : List Dec) (s : SState)
    (t' : List Dec),
    (walkSwings env op fan swings temps s).okTemps = some t' →
    t'.Perm temps := by
  induction swings with
  | nil =>
    intro temps s t' h
    simp only [walkSwings, Res.okTemps] at h
    cases h
    exact List.Perm.refl _
  | cons sw rest ih =>
    intro temps s t' h
    simp only [walkSwings] at h
    cases hlc : learn_for_mode env op fan sw temps s with
    | ok a s1 =>
      rw [hlc] at h
      exact (ih temps.reverse s1 t' h).trans (List.reverse_perm temps)
    | exit s1 =>
      rw [hlc] at h
      cases h
    | raised s1 =>
      rw [hlc] at h
      cases h
    | stuck s1 =>
      rw [hlc] at h
      cases h

theorem walkFans_perm (env : Env) (op : String)
    (swings : List (Option String)) (fans : List String) :
    ∀ (temps : List Dec) (s : SState) (t' : List Dec),
    (walkFans env op swings fans temps s).okTemps = some t' →
    t'.Perm temps := by
  induction fans with
  | nil =>
    intro temps s t' h
    simp only [walkFans, Res.okTemps] at h
    cases h
    exact List.Perm.refl _
  | cons fan rest ih =>
    intro temps s t' h
    simp only [walkFans] at h
    cases hlc : walkSwings env op fan swings temps s with
    | ok t1 s1 =>
      rw [hlc] at h
      have h1 : (walkSwings env op fan swings temps s).okTemps = some t1 := by
        rw [hlc]
        rfl
      exact (ih t1 s1 t' h).trans (walkSwings_perm env op fan swings temps s t1 h1)
    | exit s1 =>
      rw [hlc] at h
      cases h
    | raised s1 =>
      rw [hlc] at h
      cases h
    | stuck s1 =>
      rw [hlc] at h
      cases h

theorem walkOps_perm (env : Env) (fans : List String)
    (swings : List (Option String)) (ops : List String) :
    ∀ (temps : List Dec) (s : SState) (t' : List Dec),
    (walkOps env fans swings ops temps s).okTemps = some t' →
    t'.Perm temps := by
  induction ops with
  | nil =>
    intro temps s t' h
    simp only [walkOps, Res.okTemps] at h
    cases h
    exact List.Perm.refl _
  | cons op rest ih =>
    intro temps s t' h
    simp only [walkOps] at h
    cases hlc : walkFans env op swings fans temps s with
    | ok t1 s1 =>
      rw [hlc] at h
      have h1 : (walkFans env op swings fans temps s).okTemps = some t1 := by
        rw [hlc]
        rfl
      exact (ih t1 s1 t' h).trans (walkFans_perm env op swings fans temps s t1 h1)
    | exit s1 =>
      rw [hlc] at h
      cases h
    | raised s1 =>
      rw [hlc] at h
      cases h
    | stuck s1 =>
      rw [hlc] at h
      cases h

/-- Environment of the C4 scenario: the user continues at every prepare
prompt and every capture succeeds. -/
def envC4w : Env :=
  { resumeAns := false, opRaw := "", fanRaw := "",
    swingSkipAns := true, swingRaw := "",
    minResponses := [], maxResponses := [],
    skipAns := fun _ => false,
    prepAns := fun _ => "y",
    deviceRaise := fun _ => false,
    polls := fun _ _ => .ready "Q" }

/-- C4: the working temperature sequence is reversed after each triple, so
consecutive triples alternate capture order: with operation modes
`["A","B"]`, fan modes `["X"]`, swing disabled and range `[16,17,18]`, the
triple `(A,X)` captures temperatures in order `16,17,18` and `(B,X)` in
order `18,17,16`; moreover the walk hands the next triple a permutation of
the same range (reversal does not change its contents) and never changes
the document's stored bounds. -/
theorem walk_reversal_alternation :
    ((learn_all_commands envC4w ⟨["A", "B"], ["X"], [none]⟩
        [⟨false, 16, 0⟩, ⟨false, 17, 0⟩, ⟨false, 18, 0⟩] stC2w).state).trace =
      [("A", "X", none, ⟨false, 16, 0⟩), ("A", "X", none, ⟨false, 17, 0⟩),
        ("A", "X", none, ⟨false, 18, 0⟩), ("B", "X", none, ⟨false, 18, 0⟩),
        ("B", "X", none, ⟨false, 17, 0⟩), ("B", "X", none, ⟨false, 16, 0⟩)] ∧
    (∀ (env : Env) (config : LearningConfig) (temps : List Dec) (s : SState)
      (t' : List Dec),
      (learn_all_commands env config temps s).okTemps = some t' →
      t'.Perm temps) ∧
    (∀ (env : Env) (config : LearningConfig) (temps : List Dec) (s : SState),
      boundsOf ((learn_all_commands env config temps s).state) = boundsOf s) := by
  refine ⟨by rfl, ?_, ?_⟩
  · intro env config temps s t' h
    exact walkOps_perm env config.fan_modes config.swing_modes
      config.operation_modes temps s t' h
  · intro env config temps s
    exact walkOps_bounds env config.fan_modes config.swing_modes
      config.operation_modes temps s

/-- Witness for C4: in the concrete scenario the walk completes and hands
back a permutation of the original range (two reversals restore it). -/
theorem walk_reversal_alternation_witness :
    ([⟨false, 16, 0⟩, ⟨false, 17, 0⟩, ⟨false, 18, 0⟩] : List Dec).Perm
      [⟨false, 16, 0⟩, ⟨false, 17, 0⟩, ⟨false, 18, 0⟩] :=
  walk_reversal_alternation.2.1 envC4w ⟨["A", "B"], ["X"], [none]⟩
    [⟨false, 16, 0⟩, ⟨false, 17, 0⟩, ⟨false, 18, 0⟩] stC2w
    [⟨false, 16, 0⟩, ⟨false, 17, 0⟩, ⟨false, 18, 0⟩] (by rfl)

/-! C5: skipping existing non-empty cells leaves `commands` unchanged. -/

theorem dget_dsetdefault_of_some {d : PyDict} {k : String} {v : Node}
    (x : Node) (h : dget d k = some v) : dsetdefault d k x = (d, v) := by
  unfold dsetdefault
  rw [h]

theorem dset_of_dget_some : ∀ (d : PyDict) (k : String) (v : Node),
    dget d k = some v → dset d k v = d := by
  intro d
  induction d with
  | nil =>
    intro k v h
    simp [dget] at h
  | cons kv rest ih =>
    intro k v h
    obtain ⟨k0, v0⟩ := kv
    by_cases hk : k0 = k
    · simp only [dget, if_pos hk] at h
      cases h
      simp [dset, hk]
    · simp only [dget, if_neg hk] at h
      simp [dset, hk, ih k v h]

/-- Whether the target container of the cell `(op, sw)` is truthy in
Python terms: present and non-empty (a non-empty dict, or — after an "off"
capture landed on an operation-mode name — a non-empty string). -/
def cellTruthy (c : PyDict) (skipSwing : Bool) (op : String)
    (sw : Option String) : Bool :=
  match dget c op with
  | none => false
  | some (Node.leaf str) => if skipSwing || sw.isNone then str != "" else false
  | some (Node.dict fe) =>
    if skipSwing || sw.isNone then !fe.isEmpty
    else
      match sw with
      | none => false
      | some w =>
        match dget fe w with
        | none => false
        | some (Node.leaf str) => str != ""
        | some (Node.dict d) => !d.isEmpty

theorem shouldSkip_of (env : Env) (s : SState)
    (hskip : s.auto_resume = true ∨ env.skipAns s.skipIdx = true) :
    ∃ n, shouldSkip env s = (true, { s with skipIdx := n }) := by
  unfold shouldSkip
  by_cases ha : s.auto_resume = true
  · exact ⟨s.skipIdx, by rw [if_pos ha]⟩
  · have h1 : env.skipAns s.skipIdx = true := hskip.resolve_left ha
    exact ⟨s.skipIdx + 1, by rw [if_neg ha, h1]⟩

theorem learn_for_mode_skips (env : Env) (op fan : String)
    (swing : Option String) (temps : List Dec) (s : SState)
    (hcell : cellTruthy s.commands s.skip_swing_learning op swing = true)
    (hskip : s.auto_resume = true ∨ env.skipAns s.skipIdx = true) :
    ∃ n, learn_for_mode env op fan swing temps s = .ok () { s with skipIdx := n } := by
  unfold learn_for_mode
  unfold cellTruthy at hcell
  cases hget : dget s.commands op with
  | none =>
    rw [hget] at hcell
    simp at hcell
  | some node =>
    rw [hget] at hcell
    rw [dget_dsetdefault_of_some _ hget]
    show ∃ n, learnForModeWith env op fan swing node temps s = .ok () { s with skipIdx := n }
    unfold learnForModeWith
    cases swing with
    | none =>
      cases node with
      | leaf str =>
        simp only [Option.isNone_none, Bool.or_true, if_true] at hcell
        have hne : str ≠ "" := by simpa using hcell
        obtain ⟨n, hss⟩ := shouldSkip_of env s hskip
        refine ⟨n, ?_⟩
        simp [learnFlat, hne, hss]
      | dict fe =>
        simp only [Option.isNone_none, Bool.or_true, if_true] at hcell
        have hne : fe.isEmpty = false := by simpa using hcell
        obtain ⟨n, hss⟩ := shouldSkip_of env s hskip
        refine ⟨n, ?_⟩
        simp [learnFlat, hne, hss]
    | some w =>
      dsimp only at hcell ⊢
      by_cases hsk : s.skip_swing_learning = true
      · rw [if_pos hsk]
        rw [hsk] at hcell
        simp only [Bool.true_or, if_true] at hcell
        cases node with
        | leaf str =>
          have hne : str ≠ "" := by simpa using hcell
          obtain ⟨n, hss⟩ := shouldSkip_of env s hskip
          refine ⟨n, ?_⟩
          simp [learnFlat, hne, hss]
        | dict fe =>
          have hne : fe.isEmpty = false := by simpa using hcell
          obtain ⟨n, hss⟩ := shouldSkip_of env s hskip
          refine ⟨n, ?_⟩
          simp [learnFlat, hne, hss]
      · rw [if_neg hsk]
        have hskf : s.skip_swing_learning = false := by
          cases h2 : s.skip_swing_learning
          · rfl
          · exact absurd h2 hsk
        rw [hskf] at hcell
        cases node with
        | leaf str =>
          dsimp only at hcell
          simp at hcell
        | dict fe =>
          dsimp only at hcell ⊢
          rw [show (false || (some w).isNone) = false from rfl] at hcell
          rw [if_neg Bool.false_ne_true] at hcell
          cases hgetw : dget fe w with
          | none =>
            rw [hgetw] at hcell
            simp at hcell
          | some swNode =>
            rw [hgetw] at hcell
            rw [dget_dsetdefault_of_some _ hgetw]
            have hsetid : dset s.commands op (Node.dict fe) = s.commands :=
              dset_of_dget_some s.commands op (Node.dict fe) hget
            show ∃ n, learnSwing env op fan w swNode temps
              { s with commands := dset s.commands op (Node.dict fe) } =
              .ok () { s with skipIdx := n }
            rw [hsetid]
            cases swNode with
            | leaf str =>
              have hne : str ≠ "" := by simpa using hcell
              obtain ⟨n, hss⟩ := shouldSkip_of env s hskip
              refine ⟨n, ?_⟩
              simp [learnSwing, hne, hss]
            | dict dd =>
              have hne : dd.isEmpty = false := by simpa using hcell
              obtain ⟨n, hss⟩ := shouldSkip_of env s hskip
              refine ⟨n, ?_⟩
              simp [learnSwing, hne, hss]

theorem walkSwings_skips (env : Env) (op fan : String)
    (swings : List (Option String)) : ∀ (temps : List Dec) (s : SState),
    (∀ sw ∈ swings, cellTruthy s.commands s.skip_swing_learning op sw = true) →
    (s.auto_resume = true ∨ ∀ i, env.skipAns i = true) →
    ∃ n t', walkSwings env op fan swings temps s = .ok t' { s with skipIdx := n } := by
  induction swings with
  | nil =>
    intro temps s _ _
    exact ⟨s.skipIdx, temps, rfl⟩
  | cons sw rest ih =>
    intro temps s hcell hskip
    obtain ⟨n, hn⟩ := learn_for_mode_skips env op fan sw temps s
      (hcell sw (List.mem_cons_self sw rest))
      (hskip.imp_right fun h => h s.skipIdx)
    obtain ⟨n2, t', h2⟩ := ih temps.reverse { s with skipIdx := n }
      (fun sw2 hmem => hcell sw2 (List.mem_cons_of_mem sw hmem))
      (hskip.imp_right fun h => h)
    refine ⟨n2, t', ?_⟩
    simp only [walkSwings]
    rw [hn]
    exact h2

theorem walkFans_skips (env : Env) (op : String)
    (swings : List (Option String)) (fans : List String) :
    ∀ (temps : List Dec) (s : SState),
    (∀ sw ∈ swings, cellTruthy s.commands s.skip_swing_learning op sw = true) →
    (s.auto_resume = true ∨ ∀ i, env.skipAns i = true) →
    ∃ n t', walkFans env op swings fans temps s = .ok t' { s with skipIdx := n } := by
  induction fans with
  | nil =>
    intro temps s _ _
    exact ⟨s.skipIdx, temps, rfl⟩
  | cons fan rest ih =>
    intro temps s hcell hskip
    obtain ⟨n, t1, hn⟩ := walkSwings_skips env op fan swings temps s hcell hskip
    obtain ⟨n2, t', h2⟩ := ih t1 { s with skipIdx := n }
      (fun sw2 hmem => hcell sw2 hmem)
      (hskip.imp_right fun h => h)
    refine ⟨n2, t', ?_⟩
    simp only [walkFans]
    rw [hn]
    exact h2

theorem walkOps_skips (env : Env) (fans : List String)
    (swings : List (Option String)) (ops : List String) :
    ∀ (temps : List Dec) (s : SState),
    (∀ op ∈ ops, ∀ sw ∈ swings,
      cellTruthy s.commands s.skip_swing_learning op sw = true) →
    (s.auto_resume = true ∨ ∀ i, env.skipAns i = true) →
    ∃ n t', walkOps env fans swings ops temps s = .ok t' { s with skipIdx := n } := by
  induction ops with
  | nil =>
    intro temps s _ _
    exact ⟨s.skipIdx, temps, rfl⟩
  | cons op rest ih =>
    intro temps s hcell hskip
    obtain ⟨n, t1, hn⟩ := walkFans_skips env op swings fans temps s
      (hcell op (List.mem_cons_self op rest)) hskip
    obtain ⟨n2, t', h2⟩ := ih t1 { s with skipIdx := n }
      (fun op2 hmem sw2 hmem2 => hcell op2 (List.mem_cons_of_mem op hmem) sw2 hmem2)
      (hskip.imp_right fun h => h)
    refine ⟨n2, t', ?_⟩
    simp only [walkOps]
    rw [hn]
    exact h2

/-- The state of the C5 nested-swing scenario. -/
def stC5n : SState :=
  { stC2w with skip_swing_learning := false, swingModesDoc := ["s1", "s2"] }

/-- C5: skipping an existing non-empty cell leaves its container untouched,
so a second matrix walk over the same configuration in which skipping is
chosen at every (non-empty) cell — or happens automatically in auto-resume
mode — leaves `commands` unchanged.  The general statement: whenever every
cell of the product has a truthy (non-empty) target container and every
skip answer is yes (or the session is in auto-resume mode), the walk
returns normally with the whole document unchanged (only the prompt counter
advances).  The closed conjuncts run the model twice: a full capture run
followed by a skip-everything run (interactive and auto-resume, flat and
swing-nested) leaves `commands` exactly as the first run left it. -/
theorem matrix_walk_skip_idempotent :
    (∀ (env : Env) (config : LearningConfig) (temps : List Dec) (s : SState),
      (∀ op ∈ config.operation_modes, ∀ sw ∈ config.swing_modes,
        cellTruthy s.commands s.skip_swing_learning op sw = true) →
      (s.auto_resume = true ∨ ∀ i, env.skipAns i = true) →
      ∃ n t', learn_all_commands env config temps s =
        .ok t' { s with skipIdx := n }) ∧
    ((learn_all_commands { envC4w with skipAns := fun _ => true }
        ⟨["A", "B"], ["X"], [none]⟩ [⟨false, 16, 0⟩, ⟨false, 17, 0⟩]
        ((learn_all_commands envC4w ⟨["A", "B"], ["X"], [none]⟩
          [⟨false, 16, 0⟩, ⟨false, 17, 0⟩] stC2w).state)).state).commands =
      ((learn_all_commands envC4w ⟨["A", "B"], ["X"], [none]⟩
        [⟨false, 16, 0⟩, ⟨false, 17, 0⟩] stC2w).state).commands ∧
    ((learn_all_commands envC4w ⟨["A", "B"], ["X"], [none]⟩
        [⟨false, 16, 0⟩, ⟨false, 17, 0⟩]
        { (learn_all_commands envC4w ⟨["A", "B"], ["X"], [none]⟩
            [⟨false, 16, 0⟩, ⟨false, 17, 0⟩] stC2w).state with
          auto_resume := true }).state).commands =
      ((learn_all_commands envC4w ⟨["A", "B"], ["X"], [none]⟩
        [⟨false, 16, 0⟩, ⟨false, 17, 0⟩] stC2w).state).commands ∧
    ((learn_all_commands { envC4w with skipAns := fun _ => true }
        ⟨["A"], ["X"], [some "s1", some "s2"]⟩ [⟨false, 16, 0⟩]
        ((learn_all_commands envC4w ⟨["A"], ["X"], [some "s1", some "s2"]⟩
          [⟨false, 16, 0⟩] stC5n).state)).state).commands =
      ((learn_all_commands envC4w ⟨["A"], ["X"], [some "s1", some "s2"]⟩
        [⟨false, 16, 0⟩] stC5n).state).commands := by
  refine ⟨?_, by rfl, by rfl, by rfl⟩
  intro env config temps s hcell hskip
  exact walkOps_skips env config.fan_modes config.swing_modes
    config.operation_modes temps s hcell hskip

/-- Witness for C5: a single-cell configuration whose target container is
already non-empty, with every skip answer yes: the walk leaves the
document unchanged. -/
theorem matrix_walk_skip_idempotent_witness :
    ∃ n t', learn_all_commands { envC4w with skipAns := fun _ => true }
      ⟨["A"], ["X"], [none]⟩ [⟨false, 16, 0⟩]
      { stC2w with commands := [("A", .dict [("16", .leaf "Q")])] } =
      .ok t' { { stC2w with commands := [("A", .dict [("16", .leaf "Q")])] }
        with skipIdx := n } :=
  matrix_walk_skip_idempotent.1 { envC4w with skipAns := fun _ => true }
    ⟨["A"], ["X"], [none]⟩ [⟨false, 16, 0⟩]
    { stC2w with commands := [("A", .dict [("16", .leaf "Q")])] }
    (by decide) (Or.inr fun _ => rfl)

/-! C6: the "s" response captures once and replicates the command. -/

theorem dget_dset_self : ∀ (d : PyDict) (k : String) (v : Node),
    dget (dset d k v) k = some v := by
  intro d k v
  induction d with
  | nil => simp [dset, dget]
  | cons kv rest ih =>
    obtain ⟨k0, v0⟩ := kv
    by_cases hk : k0 = k
    · simp [dset, dget, hk]
    · simp [dset, dget, hk, ih]

theorem getTarget_updTarget (c : PyDict) (op : String) (sw : Option String)
    (d0 : PyDict) (f : PyDict → PyDict)
    (h : getTarget c op sw = some (.dict d0)) :
    getTarget (updTarget c op sw f) op sw = some (.dict (f d0)) := by
  cases sw with
  | none =>
    simp only [getTarget] at h
    simp only [getTarget, updTarget, h]
    exact dget_dset_self c op (.dict (f d0))
  | some w =>
    simp only [getTarget] at h
    cases hget : dget c op with
    | none =>
      rw [hget] at h
      simp at h
    | some node =>
      rw [hget] at h
      cases node with
      | leaf str => simp at h
      | dict fe =>
        dsimp only at h
        simp only [getTarget, updTarget, hget, h]
        rw [dget_dset_self c op]
        dsimp only
        exact dget_dset_self fe w (.dict (f d0))

/-- Environment of the C6 scenario: the user answers "s", and the capture
yields the code `"Qg"`. -/
def envC6w : Env :=
  { resumeAns := false, opRaw := "", fanRaw := "",
    swingSkipAns := true, swingRaw := "",
    minResponses := [], maxResponses := [],
    skipAns := fun _ => false,
    prepAns := fun _ => "s",
    deviceRaise := fun _ => false,
    polls := fun _ _ => .ready "Qg" }

/-- C6: when the prepare-prompt response is "s", `_capture_commands`
captures exactly one command (the capture counter advances by one) and
stores that same command under every temperature label of the current
range in the cleared target container.  The closed conjuncts instantiate
the claim's scenario: range `[16, 17, 18]` and one captured code `"Qg"`
leaves all three labels mapped to the identical string. -/
theorem capture_s_replicates :
    (∀ (env : Env) (op fan : String) (sw : Option String) (t0 : Dec)
      (rest : List Dec) (s : SState) (d0 : PyDict),
      pyLower (pyStrip (env.prepAns s.prepIdx)) = "s" →
      env.deviceRaise s.capIdx = false →
      getTarget s.commands op sw = some (.dict d0) →
      ∃ s', capture_commands env op fan sw false (t0 :: rest) s = .ok () s' ∧
        s'.capIdx = s.capIdx + 1 ∧
        getTarget s'.commands op sw = some (.dict
          ((t0 :: rest).foldl (fun acc t => dset acc (temperature_to_string t)
            (.leaf (learnResult (env.polls s.capIdx)))) []))) ∧
    ((capture_commands envC6w "cool" "auto" none false
        [⟨false, 16, 0⟩, ⟨false, 17, 0⟩, ⟨false, 18, 0⟩]
        { stC2w with commands := [("cool", .dict [])] }).state).commands =
      [("cool", .dict [("16", .leaf "Qg"), ("17", .leaf "Qg"),
        ("18", .leaf "Qg")])] ∧
    ((capture_commands envC6w "cool" "auto" none false
        [⟨false, 16, 0⟩, ⟨false, 17, 0⟩, ⟨false, 18, 0⟩]
        { stC2w with commands := [("cool", .dict [])] }).state).capIdx = 1 := by
  refine ⟨?_, by rfl, by rfl⟩
  intro env op fan sw t0 rest s d0 hresp hraise htarget
  have htarget1 : getTarget (updTarget s.commands op sw (fun _ => [])) op sw =
      some (.dict []) := getTarget_updTarget s.commands op sw d0 _ htarget
  set c2 : PyDict := updTarget (updTarget s.commands op sw (fun _ => [])) op sw
    (fun d => (t0 :: rest).foldl (fun acc t => dset acc
      (temperature_to_string t)
      (.leaf (learnResult (env.polls s.capIdx)))) d) with hc2
  refine ⟨{ s with prepIdx := s.prepIdx + 1, capIdx := s.capIdx + 1, commands := c2 }, ?_, rfl, ?_⟩
  · unfold capture_commands
    dsimp only
    rw [hresp]
    rw [if_neg (by decide : ¬("s" = "n"))]
    rw [if_neg Bool.false_ne_true]
    rw [if_pos rfl]
    unfold learnCommand
    dsimp only
    rw [hraise]
    rfl
  · dsimp only
    have := getTarget_updTarget (updTarget s.commands op sw (fun _ => []))
      op sw [] (fun d => (t0 :: rest).foldl (fun acc t => dset acc
        (temperature_to_string t) (.leaf (learnResult (env.polls s.capIdx)))) d)
      htarget1
    exact this

/-- Witness for C6: the general statement applied to the concrete "s"
scenario of the claim. -/
theorem capture_s_replicates_witness :
    ∃ s', capture_commands envC6w "cool" "auto" none false
      [⟨false, 16, 0⟩, ⟨false, 17, 0⟩, ⟨false, 18, 0⟩]
      { stC2w with commands := [("cool", .dict [])] } = .ok () s' ∧
      s'.capIdx = 0 + 1 ∧
      getTarget s'.commands "cool" none = some (.dict
        (([⟨false, 16, 0⟩, ⟨false, 17, 0⟩, ⟨false, 18, 0⟩] : List Dec).foldl
          (fun acc t => dset acc (temperature_to_string t)
            (.leaf (learnResult (envC6w.polls 0)))) [])) :=
  capture_s_replicates.1 envC6w "cool" "auto" none ⟨false, 16, 0⟩
    [⟨false, 17, 0⟩, ⟨false, 18, 0⟩]
    { stC2w with commands := [("cool", .dict [])] } [] (by rfl) (by rfl) (by rfl)

/-! C7: a capture that times out yields the empty-string sentinel and the
walk continues. -/

theorem learnResultAux_transient (polls : ℕ → PollOutcome) :
    ∀ (fuel i : ℕ), (∀ j, i ≤ j → j < i + fuel → polls j = .transient) →
    learnResultAux polls fuel i = "" := by
  intro fuel
  induction fuel with
  | zero =>
    intro i _
    rfl
  | succ f ih =>
    intro i h
    have hpi : polls i = .transient := h i le_rfl (by omega)
    simp only [learnResultAux, hpi]
    exact ih (i + 1) (fun j hj1 hj2 => h j (by omega) (by omega))

/-- Environment of the C7 scenario: the first capture call only ever sees
transient read/storage errors; later captures succeed with `"X"`. -/
def envC7w : Env :=
  { resumeAns := false, opRaw := "", fanRaw := "",
    swingSkipAns := true, swingRaw := "",
    minResponses := [], maxResponses := [],
    skipAns := fun _ => false,
    prepAns := fun _ => "y",
    deviceRaise := fun _ => false,
    polls := fun k _ => if k = 0 then .transient else .ready "X" }

/-- C7: when no capture data becomes available within the 30-second budget
(every one of the 60 polls raises a transient read/storage error),
`_learn_command` returns the empty-string sentinel instead of raising; in
the walk the empty string is recorded for that cell and the walk proceeds
to the next cell.  The closed conjunct: with two one-temperature cells
whose first capture times out, the walk completes normally, the first cell
stores `""` and the next cell stores its captured code. -/
theorem learn_command_timeout_sentinel :
    (∀ polls : ℕ → PollOutcome,
      (∀ i, i < 60 → polls i = .transient) → learnResult polls = "") ∧
    ((learn_all_commands envC7w ⟨["A", "B"], ["X"], [none]⟩ [⟨false, 16, 0⟩]
        stC2w).state).commands =
      [("A", .dict [("16", .leaf "")]), ("B", .dict [("16", .leaf "X")])] ∧
    (learn_all_commands envC7w ⟨["A", "B"], ["X"], [none]⟩ [⟨false, 16, 0⟩]
        stC2w).okTemps = some [⟨false, 16, 0⟩] := by
  refine ⟨?_, by rfl, by rfl⟩
  intro polls h
  exact learnResultAux_transient polls 60 0 (fun j _ hj2 => h j (by omega))

/-- Witness for C7: the all-transient poll oracle yields the sentinel. -/
theorem learn_command_timeout_sentinel_witness :
    learnResult (fun _ => .transient) = "" :=
  learn_command_timeout_sentinel.1 (fun _ => .transient) (fun _ _ => rfl)

/-! C8: which values `prompt_temperature` can return. -/

theorem prompt_check_chain (precision : Dec) (minimum : Option Dec)
    (value v : Dec) (r0 : Option Dec)
    (hr0 : r0 = some v →
      0 < precision.val ∧ (∃ k : ℤ, v.val = k * precision.val) ∧
        ∀ m, minimum = some m →
          m.val ≤ v.val ∧ ∃ k : ℤ, v.val - m.val = k * precision.val)
    (h : tempChecks precision minimum value r0 = some v) :
    0 < precision.val ∧ (∃ k : ℤ, v.val = k * precision.val) ∧
      ∀ m, minimum = some m →
        m.val ≤ v.val ∧ ∃ k : ℤ, v.val - m.val = k * precision.val := by
  unfold tempChecks at h
  by_cases h1 : precision.le decZero = true
  · rw [if_pos h1] at h
    exact hr0 h
  · rw [if_neg h1] at h
    have hpos : 0 < precision.val := by
      have := (Dec.le_eq_false_iff precision decZero).mp
        (Bool.eq_false_iff.mpr h1)
      rwa [decZero_val] at this
    by_cases h2 : value.isMulOf precision = true
    · rw [h2] at h
      simp only [Bool.not_true, Bool.false_eq_true, if_false] at h
      cases minimum with
      | none =>
        dsimp only at h
        cases h
        refine ⟨hpos, ?_, ?_⟩
        · exact (Dec.isMulOf_iff value precision (ne_of_gt hpos)).mp h2
        · intro m hm
          cases hm
      | some m =>
        dsimp only at h
        by_cases h3 : value.lt m = true
        · rw [if_pos h3] at h
          exact hr0 h
        · rw [if_neg h3] at h
          by_cases h4 : (value.sub m).isMulOf precision = true
          · rw [h4] at h
            simp only [Bool.not_true, Bool.false_eq_true, if_false] at h
            cases h
            refine ⟨hpos, ?_, ?_⟩
            · exact (Dec.isMulOf_iff value precision (ne_of_gt hpos)).mp h2
            · intro m2 hm2
              cases hm2
              constructor
              · have hlt : ¬ value.val < m.val := fun hc =>
                  h3 ((Dec.lt_iff value m).mpr hc)
                exact le_of_not_lt hlt
              · have h5 := (Dec.isMulOf_iff (value.sub m) precision
                  (ne_of_gt hpos)).mp h4
                rwa [Dec.val_sub] at h5
          · have h4f : (value.sub m).isMulOf precision = false :=
              Bool.eq_false_iff.mpr h4
            rw [h4f] at h
            simp only [Bool.not_false, if_true] at h
            exact hr0 h
    · have h2f : value.isMulOf precision = false := Bool.eq_false_iff.mpr h2
      rw [h2f] at h
      simp only [Bool.not_false, if_true] at h
      exact hr0 h

/-- The "only if" direction of the amended C8: any value the prompt
returns is an exact integer multiple of the precision, and when a minimum
is fixed it is at least the minimum with the difference again an exact
multiple of the precision; every rejection merely re-prompts. -/
theorem prompt_temperature_only_if :
    ∀ (rs : List TempResp) (default precision : Dec) (minimum : Option Dec)
      (v : Dec),
    prompt_temperature default precision minimum rs = some v →
    0 < precision.val ∧ (∃ k : ℤ, v.val = k * precision.val) ∧
      ∀ m, minimum = some m →
        m.val ≤ v.val ∧ ∃ k : ℤ, v.val - m.val = k * precision.val := by
  intro rs
  induction rs with
  | nil =>
    intro default precision minimum v h
    simp [prompt_temperature] at h
  | cons r rest ih =>
    intro default precision minimum v h
    unfold prompt_temperature at h
    cases r with
    | empty =>
      dsimp only at h
      exact prompt_check_chain precision minimum default v _
        (ih default precision minimum v) h
    | invalid =>
      dsimp only at h
      exact ih default precision minimum v h
    | value v0 =>
      dsimp only at h
      exact prompt_check_chain precision minimum v0 v _
        (ih default precision minimum v) h

/-- C8 (amended): `prompt_temperature` returns a value only if the value is
an exact integer multiple of the precision (the `value % precision == 0`
grid check — congruence to zero, not to the default) and, when a minimum
is already fixed, only if the value is at least the minimum and the
difference is an exact multiple of the precision; any violating candidate
merely causes a re-prompt and never escapes as an error. -/
theorem prompt_temperature_grid_aligned (rs : List TempResp)
    (default precision : Dec) (minimum : Option Dec) (v : Dec)
    (h : prompt_temperature default precision minimum rs = some v) :
    0 < precision.val ∧ (∃ k : ℤ, v.val = k * precision.val) ∧
      ∀ m, minimum = some m →
        m.val ≤ v.val ∧ ∃ k : ℤ, v.val - m.val = k * precision.val :=
  prompt_temperature_only_if rs default precision minimum v h

/-- Witness for C8: precision `0.5`, fixed minimum `16`, response `17.5`;
the prompt returns `17.5`, a multiple of the precision, at least the
minimum, with difference a multiple of the precision. -/
theorem prompt_temperature_grid_aligned_witness :
    0 < (Dec.mk false 5 (-1)).val ∧
      (∃ k : ℤ, (Dec.mk false 175 (-1)).val = k * (Dec.mk false 5 (-1)).val) ∧
      ∀ m, (some (Dec.mk false 16 0) : Option Dec) = some m →
        m.val ≤ (Dec.mk false 175 (-1)).val ∧
        ∃ k : ℤ, (Dec.mk false 175 (-1)).val - m.val = k * (Dec.mk false 5 (-1)).val :=
  prompt_temperature_grid_aligned [.value ⟨false, 175, -1⟩] ⟨false, 30, 0⟩
    ⟨false, 5, -1⟩ (some ⟨false, 16, 0⟩) ⟨false, 175, -1⟩ (by rfl)

/-- Counterexample to C8 as stated: with precision `0.5` and the off-grid
default `16.3`, the response `16.5` is accepted and returned, yet `16.5`
is not congruent to the default modulo the precision (the source checks
`value % precision == 0`, not congruence to the default). -/
theorem prompt_temperature_default_congruence_fails :
    prompt_temperature ⟨false, 163, -1⟩ ⟨false, 5, -1⟩ none
      [.value ⟨false, 165, -1⟩] = some ⟨false, 165, -1⟩ ∧
    ¬ ∃ k : ℤ, (Dec.mk false 165 (-1)).val - (Dec.mk false 163 (-1)).val =
      k * (Dec.mk false 5 (-1)).val := by
  constructor
  · rfl
  · rintro ⟨k, hk⟩
    have h165 : (Dec.mk false 165 (-1)).val = 33 / 2 := by
      norm_num [Dec.val, Dec.sm, Dec.pow10, Int.toNat_ofNat]
    have h163 : (Dec.mk false 163 (-1)).val = 163 / 10 := by
      norm_num [Dec.val, Dec.sm, Dec.pow10, Int.toNat_ofNat]
    have h05 : (Dec.mk false 5 (-1)).val = 1 / 2 := by
      norm_num [Dec.val, Dec.sm, Dec.pow10, Int.toNat_ofNat]
    rw [h165, h163, h05] at hk
    have hq : (k : ℚ) = 2 / 5 := by linarith [hk]
    have h2 : ((5 * k : ℤ) : ℚ) = 2 := by
      push_cast
      linarith [hq]
    have h3 : (5 * k : ℤ) = 2 := by exact_mod_cast h2
    omega

/-! C10: `prompt_list` on responses made of commas and whitespace. -/

theorem splitComma_all_ws (l : List Char)
    (hall : ∀ c ∈ l, c = ',' ∨ wsChar c = true) :
    ∀ p ∈ splitComma l, ∀ c ∈ p, wsChar c = true := by
  induction l with
  | nil =>
    intro p hp c hc
    simp [splitComma] at hp
    subst hp
    simp at hc
  | cons c0 rest ih =>
    intro p hp c hc
    have ihall : ∀ c ∈ rest, c = ',' ∨ wsChar c = true :=
      fun c2 hmem => hall c2 (List.mem_cons_of_mem c0 hmem)
    by_cases hcomma : c0 = ','
    · simp only [splitComma, if_pos hcomma] at hp
      rcases List.mem_cons.mp hp with h | h
      · subst h
        simp at hc
      · exact ih ihall p h c hc
    · have hws : wsChar c0 = true :=
        (hall c0 (List.mem_cons_self c0 rest)).resolve_left hcomma
      simp only [splitComma, if_neg hcomma] at hp
      cases hsp : splitComma rest with
      | nil =>
        rw [hsp] at hp
        simp at hp
        subst hp
        simp at hc
        subst hc
        exact hws
      | cons p0 ps =>
        rw [hsp] at hp
        rcases List.mem_cons.mp hp with h | h
        · subst h
          rcases List.mem_cons.mp hc with h2 | h2
          · subst h2
            exact hws
          · exact ih ihall p0 (by rw [hsp]; exact List.mem_cons_self p0 ps) c h2
        · exact ih ihall p (by rw [hsp]; exact List.mem_cons_of_mem p0 h) c hc

theorem trimChars_of_all_ws (l : List Char)
    (h : ∀ c ∈ l, wsChar c = true) : trimChars l = [] := by
  unfold trimChars
  have h1 : l.dropWhile wsChar = [] := List.dropWhile_eq_nil_iff.mpr h
  rw [h1]
  rfl

theorem mem_of_mem_trimChars {l : List Char} {c : Char}
    (h : c ∈ trimChars l) : c ∈ l := by
  unfold trimChars at h
  rw [List.mem_reverse] at h
  have h2 := (List.dropWhile_sublist wsChar).mem h
  rw [List.mem_reverse] at h2
  exact (List.dropWhile_sublist wsChar).mem h2

theorem prompt_list_commas_ws (raw : String) (stored : List String)
    (hall : ∀ c ∈ raw.data, c = ',' ∨ wsChar c = true)
    (ht : trimChars raw.data ≠ []) : prompt_list raw stored = [] := by
  unfold prompt_list
  rw [if_neg ht]
  have hfilter : ((splitComma (trimChars raw.data)).map trimChars).filter
      (· ≠ []) = [] := by
    rw [List.filter_eq_nil_iff]
    intro a ha
    rw [List.mem_map] at ha
    obtain ⟨p, hp, rfl⟩ := ha
    have hallt : ∀ c ∈ trimChars raw.data, c = ',' ∨ wsChar c = true :=
      fun c hmem => hall c (mem_of_mem_trimChars hmem)
    have hws := splitComma_all_ws (trimChars raw.data) hallt p hp
    simp [trimChars_of_all_ws p hws]
  rw [hfilter]
  rfl

theorem walkOps_nil_fans (env : Env) (swings : List (Option String))
    (ops : List String) : ∀ (temps : List Dec) (s : SState),
    walkOps env [] swings ops temps s = .ok temps s := by
  induction ops with
  | nil =>
    intro temps s
    rfl
  | cons op rest ih =>
    intro temps s
    simp only [walkOps, walkFans, Res.bind]
    exact ih temps s

/-- C10: `prompt_list` reuses the stored values exactly when the stripped
response is empty; a non-empty response made only of commas and whitespace
yields the empty list, not the stored values — so for the swing-mode axis
such a response (with skipping declined) triggers the skip fallback
(`[None]`, flag set), while an empty operation-mode or fan-mode axis makes
the product walk visit nothing. -/
theorem prompt_list_blank_vs_commas :
    (∀ (raw : String) (stored : List String),
      trimChars raw.data = [] → prompt_list raw stored = stored) ∧
    (∀ (raw : String) (s1 s2 : List String),
      trimChars raw.data ≠ [] → prompt_list raw s1 = prompt_list raw s2) ∧
    (∀ (raw : String) (stored : List String),
      (∀ c ∈ raw.data, c = ',' ∨ wsChar c = true) →
      trimChars raw.data ≠ [] → prompt_list raw stored = []) ∧
    (∀ (env : Env) (s : SState),
      env.swingSkipAns = false →
      (∀ c ∈ env.swingRaw.data, c = ',' ∨ wsChar c = true) →
      trimChars env.swingRaw.data ≠ [] →
      (resolve_swing_modes env s).1 = [none] ∧
      (resolve_swing_modes env s).2.skip_swing_learning = true) ∧
    (∀ (env : Env) (fans : List String) (swings : List (Option String))
      (temps : List Dec) (s : SState),
      learn_all_commands env ⟨[], fans, swings⟩ temps s = .ok temps s) ∧
    (∀ (env : Env) (ops : List String) (swings : List (Option String))
      (temps : List Dec) (s : SState),
      learn_all_commands env ⟨ops, [], swings⟩ temps s = .ok temps s) := by
  refine ⟨?_, ?_, ?_, ?_, ?_, ?_⟩
  · intro raw stored h
    unfold prompt_list
    rw [if_pos h]
  · intro raw s1 s2 h
    unfold prompt_list
    rw [if_neg h, if_neg h]
  · exact prompt_list_commas_ws
  · intro env s hans hall ht
    have hsm : prompt_list env.swingRaw s.swingModesDoc = [] :=
      prompt_list_commas_ws env.swingRaw s.swingModesDoc hall ht
    unfold resolve_swing_modes
    dsimp only
    rw [ite_self]
    rw [hans]
    simp only [Bool.false_eq_true, if_false]
    rw [hsm]
    simp [clear_swing_modes]
  · intro env fans swings temps s
    rfl
  · intro env ops swings temps s
    exact walkOps_nil_fans env swings ops temps s

/-- Witness for C10: the response `" , ,, "` (commas and spaces only) does
not reuse the stored values but produces the empty list. -/
theorem prompt_list_blank_vs_commas_witness :
    prompt_list " , ,, " ["a", "b"] = [] :=
  prompt_list_blank_vs_commas.2.2.1 " , ,, " ["a", "b"] (by decide) (by decide)

/-! C9: the rendering of decimals.  Digit-level facts first. -/

theorem charVal_digitChar {d : ℕ} (h : d < 10) : charVal (digitChar d) = d := by
  interval_cases d <;> rfl

theorem digitChar_ne_dot {d : ℕ} (h : d < 10) : digitChar d ≠ '.' := by
  interval_cases d <;> decide

theorem digitChar_ne_dash {d : ℕ} (h : d < 10) : digitChar d ≠ '-' := by
  interval_cases d <;> decide

theorem digitsToNat_append (l1 l2 : List Char) :
    digitsToNat (l1 ++ l2) =
      digitsToNat l2 + digitsToNat l1 * 10 ^ l2.length := by
  induction l2 generalizing l1 with
  | nil =>
    simp [digitsToNat, List.foldl_append]
  | cons c t ih =>
    have h1 : l1 ++ c :: t = (l1 ++ [c]) ++ t := by simp
    rw [h1, ih (l1 ++ [c])]
    have h2 : (c :: t : List Char) = [c] ++ t := rfl
    rw [h2, ih [c]]
    have h3 : digitsToNat (l1 ++ [c]) = 10 * digitsToNat l1 + charVal c := by
      simp [digitsToNat, List.foldl_append]
    have h4 : digitsToNat [c] = charVal c := by
      simp [digitsToNat]
    rw [h3, h4]
    simp only [List.length_append, List.length_cons, List.length_nil]
    ring

theorem digitsToNat_rev_map (ds : List ℕ) (h : ∀ d ∈ ds, d < 10) :
    digitsToNat ((ds.map digitChar).reverse) = Nat.ofDigits 10 ds := by
  induction ds with
  | nil => rfl
  | cons d t ih =>
    simp only [List.map_cons, List.reverse_cons]
    rw [digitsToNat_append]
    have hd : d < 10 := h d (List.mem_cons_self d t)
    have ht : ∀ x ∈ t, x < 10 := fun x hm => h x (List.mem_cons_of_mem d hm)
    have h1 : digitsToNat [digitChar d] = d := by
      simp [digitsToNat, charVal_digitChar hd]
    rw [h1, ih ht, Nat.ofDigits_cons]
    simp [mul_comm]

theorem digitsLE_lt (n : ℕ) : ∀ d ∈ digitsLE n, d < 10 := by
  rw [digitsLE_eq]
  intro d hd
  exact Nat.digits_lt_base (by norm_num) hd

theorem digitsToNat_intDigitsChars (n : ℕ) :
    digitsToNat (intDigitsChars n) = n := by
  unfold intDigitsChars
  by_cases h : n = 0
  · subst h
    rfl
  · rw [if_neg h, digitsToNat_rev_map (digitsLE n) (digitsLE_lt n),
      digitsLE_eq, Nat.ofDigits_digits]

theorem intDigitsChars_ne_nil (n : ℕ) : intDigitsChars n ≠ [] := by
  unfold intDigitsChars
  by_cases h : n = 0
  · simp [h]
  · rw [if_neg h]
    intro hcon
    have h1 : (digitsLE n).length = 0 := by
      have := congrArg List.length hcon
      simpa using this
    rw [digitsLE_eq] at h1
    exact h (Nat.digits_eq_nil_iff_eq_zero.mp (List.length_eq_zero.mp h1))

theorem mem_intDigitsChars (n : ℕ) {c : Char} (h : c ∈ intDigitsChars n) :
    ∃ d, d < 10 ∧ c = digitChar d := by
  unfold intDigitsChars at h
  by_cases h0 : n = 0
  · rw [if_pos h0] at h
    simp at h
    exact ⟨0, by norm_num, h⟩
  · rw [if_neg h0, List.mem_reverse, List.mem_map] at h
    obtain ⟨d, hd, rfl⟩ := h
    exact ⟨d, digitsLE_lt n d hd, rfl⟩

theorem ofDigits_replicate_zero (z : ℕ) :
    Nat.ofDigits 10 (List.replicate z 0) = 0 := by
  induction z with
  | zero => rfl
  | succ m ih => simp [List.replicate_succ, Nat.ofDigits_cons, ih]

theorem digitsLE_len_le {r k : ℕ} (h : r < 10 ^ k) :
    (digitsLE r).length ≤ k := by
  rw [digitsLE_eq]
  by_cases h0 : r = 0
  · simp [h0]
  · rw [Nat.digits_len 10 r (by norm_num) h0]
    have := Nat.log_lt_of_lt_pow h0 h
    omega

theorem digitsToNat_fracDigitsChars {r k : ℕ} (h : r < 10 ^ k) :
    digitsToNat (fracDigitsChars r k) = r := by
  unfold fracDigitsChars
  rw [digitsToNat_rev_map]
  · rw [Nat.ofDigits_append, digitsLE_eq, Nat.ofDigits_digits,
      ofDigits_replicate_zero]
    simp
  · intro d hd
    rcases List.mem_append.mp hd with h1 | h1
    · exact digitsLE_lt r d h1
    · rw [List.eq_of_mem_replicate h1]
      norm_num

theorem fracDigitsChars_length {r k : ℕ} (h : r < 10 ^ k) :
    (fracDigitsChars r k).length = k := by
  unfold fracDigitsChars
  have := digitsLE_len_le h
  simp only [List.length_reverse, List.length_map, List.length_append,
    List.length_replicate]
  omega

theorem mem_fracDigitsChars {r k : ℕ} {c : Char}
    (h : c ∈ fracDigitsChars r k) : ∃ d, d < 10 ∧ c = digitChar d := by
  unfold fracDigitsChars at h
  rw [List.mem_reverse, List.mem_map] at h
  obtain ⟨d, hd, rfl⟩ := h
  rcases List.mem_append.mp hd with h1 | h1
  · exact ⟨d, digitsLE_lt r d h1, rfl⟩
  · rw [List.eq_of_mem_replicate h1]
    exact ⟨0, by norm_num, rfl⟩

/-! Parsing and stripping lemmas for the rendered fixed-point text. -/

theorem dropWhile_append_of_all {α : Type} (p : α → Bool) (a b : List α)
    (h : ∀ x ∈ a, p x = true) :
    (a ++ b).dropWhile p = b.dropWhile p := by
  induction a with
  | nil => rfl
  | cons c t ih =>
    have hc : p c = true := h c (List.mem_cons_self c t)
    simp only [List.cons_append, List.dropWhile_cons, hc, if_true]
    exact ih (fun x hx => h x (List.mem_cons_of_mem c hx))

theorem dropWhile_append_of_ne_nil {α : Type} (p : α → Bool) (a b : List α)
    (h : a.dropWhile p ≠ []) :
    (a ++ b).dropWhile p = a.dropWhile p ++ b := by
  induction a with
  | nil => simp at h
  | cons c t ih =>
    by_cases hc : p c = true
    · simp only [List.dropWhile_cons, hc, if_true] at h
      simp only [List.cons_append, List.dropWhile_cons, hc, if_true]
      exact ih h
    · have hcf : p c = false := Bool.eq_false_iff.mpr hc
      simp only [List.cons_append, List.dropWhile_cons, hcf]
      simp

theorem dropWhile_of_all_neg {α : Type} (p : α → Bool) (l : List α)
    (h : ∀ x ∈ l, p x = false) : l.dropWhile p = l := by
  cases l with
  | nil => rfl
  | cons c t =>
    simp only [List.dropWhile_cons, h c (List.mem_cons_self c t)]
    simp

theorem mem_of_mem_rstripZeros {l : List Char} {c : Char}
    (h : c ∈ rstripZeros l) : c ∈ l := by
  unfold rstripZeros at h
  rw [List.mem_reverse] at h
  have h2 := (List.dropWhile_sublist (· = '0')).mem h
  rwa [List.mem_reverse] at h2

theorem rstripZeros_decomp (fp : List Char) :
    ∃ z, fp = rstripZeros fp ++ List.replicate z '0' := by
  refine ⟨(fp.reverse.takeWhile (· = '0')).length, ?_⟩
  unfold rstripZeros
  have hsplit := List.takeWhile_append_dropWhile (p := (· = '0')) (l := fp.reverse)
  have hrep : fp.reverse.takeWhile (· = '0') =
      List.replicate (fp.reverse.takeWhile (· = '0')).length '0' := by
    rw [List.eq_replicate_iff]
    refine ⟨rfl, ?_⟩
    intro b hb
    have := List.mem_takeWhile_imp hb
    simpa using this
  calc fp = fp.reverse.reverse := by rw [List.reverse_reverse]
    _ = (fp.reverse.takeWhile (· = '0') ++ fp.reverse.dropWhile (· = '0')).reverse := by
        rw [hsplit]
    _ = (fp.reverse.dropWhile (· = '0')).reverse ++
        (fp.reverse.takeWhile (· = '0')).reverse := by
        rw [List.reverse_append]
    _ = (fp.reverse.dropWhile (· = '0')).reverse ++
        List.replicate (fp.reverse.takeWhile (· = '0')).length '0' := by
        congr 1
        rw [hrep, List.reverse_replicate, List.length_replicate]

theorem digitsToNat_all_zero (l : List Char) (h : ∀ c ∈ l, c = '0') :
    digitsToNat l = 0 := by
  induction l with
  | nil => rfl
  | cons c t ih =>
    have hc : c = '0' := h c (List.mem_cons_self c t)
    subst hc
    have : digitsToNat ('0' :: t) = digitsToNat t := rfl
    rw [this]
    exact ih (fun c2 h2 => h c2 (List.mem_cons_of_mem '0' h2))

/-! Splitting the rendered text at the decimal point. -/

theorem takeWhile_no_dot (ip fp : List Char) (h : ∀ c ∈ ip, c ≠ '.') :
    ((ip ++ '.' :: fp).takeWhile (· ≠ '.')) = ip := by
  induction ip with
  | nil => simp
  | cons c t ih =>
    have hc : c ≠ '.' := h c (List.mem_cons_self c t)
    simp only [List.cons_append, List.takeWhile_cons, decide_eq_true_eq]
    rw [if_pos hc, ih (fun x hx => h x (List.mem_cons_of_mem c hx))]

theorem dropWhile_no_dot (ip fp : List Char) (h : ∀ c ∈ ip, c ≠ '.') :
    ((ip ++ '.' :: fp).dropWhile (· ≠ '.')) = '.' :: fp := by
  induction ip with
  | nil => simp
  | cons c t ih =>
    have hc : c ≠ '.' := h c (List.mem_cons_self c t)
    simp only [List.cons_append, List.dropWhile_cons, decide_eq_true_eq]
    rw [if_pos hc, ih (fun x hx => h x (List.mem_cons_of_mem c hx))]

theorem parsePosChars_no_dot (l : List Char) (h : ∀ c ∈ l, c ≠ '.') :
    parsePosChars l = (digitsToNat l : ℚ) := by
  have hd : l.dropWhile (· ≠ '.') = [] := by
    rw [List.dropWhile_eq_nil_iff]
    intro x hx
    simpa using h x hx
  unfold parsePosChars
  rw [hd]

theorem parsePosChars_dot (ip fp : List Char) (h : ∀ c ∈ ip, c ≠ '.') :
    parsePosChars (ip ++ '.' :: fp) =
      (digitsToNat ip : ℚ) + (digitsToNat fp : ℚ) / 10 ^ fp.length := by
  unfold parsePosChars
  rw [dropWhile_no_dot ip fp h]
  dsimp only
  rw [takeWhile_no_dot ip fp h]

theorem parseTemperature_mk_neg (l : List Char) :
    parseTemperature (String.mk ('-' :: l)) = -(parsePosChars l) := rfl

theorem parseTemperature_mk_of_ne (c : Char) (t : List Char) (h : c ≠ '-') :
    parseTemperature (String.mk (c :: t)) = parsePosChars (c :: t) := by
  unfold parseTemperature
  split
  · rename_i rest heq
    exact absurd (List.head_eq_of_cons_eq heq) h
  · rfl

/-! Behaviour of the two right-strips on the rendered text. -/

theorem rstripZeros_all_zero (pre fp : List Char) (h : ∀ c ∈ fp, c = '0') :
    rstripZeros (pre ++ '.' :: fp) = pre ++ ['.'] := by
  unfold rstripZeros
  have h1 : (pre ++ '.' :: fp).reverse = fp.reverse ++ '.' :: pre.reverse := by
    simp
  rw [h1, dropWhile_append_of_all _ _ _
    (fun x hx => by simpa using h x (List.mem_reverse.mp hx))]
  rw [List.dropWhile_cons]
  simp

theorem rstripZeros_dot (pre fp : List Char) (h : rstripZeros fp ≠ []) :
    rstripZeros (pre ++ '.' :: fp) = pre ++ '.' :: rstripZeros fp := by
  have hdw : fp.reverse.dropWhile (· = '0') ≠ [] := by
    intro hcon
    apply h
    unfold rstripZeros
    rw [hcon]
    rfl
  unfold rstripZeros
  have h1 : (pre ++ '.' :: fp).reverse = fp.reverse ++ '.' :: pre.reverse := by
    simp
  rw [h1, dropWhile_append_of_ne_nil _ _ _ hdw]
  simp

theorem rstripZeros_append_zero (l : List Char) :
    rstripZeros (l ++ ['0']) = rstripZeros l := by
  unfold rstripZeros
  rw [List.reverse_append]
  have h1 : (['0'] : List Char).reverse ++ l.reverse = '0' :: l.reverse := rfl
  rw [h1, List.dropWhile_cons]
  simp

theorem rstripDot_append_dot (pre : List Char) (h : ∀ c ∈ pre, c ≠ '.') :
    rstripDot (pre ++ ['.']) = pre := by
  unfold rstripDot
  rw [List.reverse_append]
  have h1 : (['.'] : List Char).reverse ++ pre.reverse = '.' :: pre.reverse := rfl
  have h2 : ('.' :: pre.reverse).dropWhile (· = '.') =
      pre.reverse.dropWhile (· = '.') := by
    rw [List.dropWhile_cons]
    simp
  rw [h1, h2, dropWhile_of_all_neg _ _
    (fun x hx => by simpa using h x (List.mem_reverse.mp hx)),
    List.reverse_reverse]

theorem rstripDot_of_last_ne (l : List Char) (c : Char) (t : List Char)
    (hrev : l.reverse = c :: t) (h : c ≠ '.') : rstripDot l = l := by
  unfold rstripDot
  rw [hrev, List.dropWhile_cons]
  simp only [decide_eq_true_eq, if_neg h]
  rw [← hrev, List.reverse_reverse]

theorem digitsToNat_append_replicate (l : List Char) (z : ℕ) :
    digitsToNat (l ++ List.replicate z '0') = digitsToNat l * 10 ^ z := by
  rw [digitsToNat_append, digitsToNat_all_zero _
    (fun c hc => List.eq_of_mem_replicate hc), List.length_replicate]
  omega

theorem fracDigitsChars_zero (k : ℕ) :
    fracDigitsChars 0 k = List.replicate k '0' := by
  unfold fracDigitsChars
  have h0 : digitsLE 0 = [] := rfl
  rw [h0]
  simp only [List.nil_append, Nat.sub_zero, List.length_nil, List.map_replicate]
  have hd : digitChar 0 = '0' := rfl
  rw [hd, List.reverse_replicate]

theorem no_dot_intDigitsChars (n : ℕ) : ∀ c ∈ intDigitsChars n, c ≠ '.' := by
  intro c hc
  obtain ⟨d, hd, rfl⟩ := mem_intDigitsChars n hc
  exact digitChar_ne_dot hd

theorem no_dot_fracDigitsChars (r k : ℕ) :
    ∀ c ∈ fracDigitsChars r k, c ≠ '.' := by
  intro c hc
  obtain ⟨d, hd, rfl⟩ := mem_fracDigitsChars hc
  exact digitChar_ne_dot hd

/-! The three shapes of the rendered label. -/

theorem tts_expand (d : Dec) :
    temperature_to_string d =
      String.mk
        (if '.' ∈ (if d.neg then ['-'] else []) ++ fixedChars d.coeff d.exp
         then rstripDot (rstripZeros
            ((if d.neg then ['-'] else []) ++ fixedChars d.coeff d.exp))
         else (if d.neg then ['-'] else []) ++ fixedChars d.coeff d.exp) := rfl

theorem sign_no_dot (b : Bool) {c : Char}
    (h : c ∈ (if b then ['-'] else ([] : List Char))) : c ≠ '.' := by
  cases b
  · simp at h
  · simp at h
    subst h
    decide

theorem tts_of_nonneg (d : Dec) (he : 0 ≤ d.exp) :
    temperature_to_string d =
      String.mk ((if d.neg then ['-'] else []) ++
        intDigitsChars (d.coeff * 10 ^ d.exp.toNat)) := by
  have hfix : fixedChars d.coeff d.exp =
      intDigitsChars (d.coeff * 10 ^ d.exp.toNat) := by
    unfold fixedChars
    rw [if_pos he]
  rw [tts_expand, hfix]
  have hnd : ¬ ('.' ∈ (if d.neg then ['-'] else []) ++
      intDigitsChars (d.coeff * 10 ^ d.exp.toNat)) := by
    intro hmem
    rcases List.mem_append.mp hmem with h1 | h1
    · exact sign_no_dot d.neg h1 rfl
    · exact no_dot_intDigitsChars _ _ h1 rfl
  rw [if_neg hnd]

theorem fixedChars_of_neg (c : ℕ) (e : ℤ) (he : e < 0) :
    fixedChars c e =
      intDigitsChars (c / 10 ^ (-e).toNat) ++
        '.' :: fracDigitsChars (c % 10 ^ (-e).toNat) (-e).toNat := by
  unfold fixedChars
  rw [if_neg (by omega)]

theorem tts_neg_exp_rzero (d : Dec) (he : d.exp < 0)
    (hr : d.coeff % 10 ^ (-d.exp).toNat = 0) :
    temperature_to_string d =
      String.mk ((if d.neg then ['-'] else []) ++
        intDigitsChars (d.coeff / 10 ^ (-d.exp).toNat)) := by
  rw [tts_expand, fixedChars_of_neg d.coeff d.exp he]
  rw [if_pos (by simp)]
  rw [hr, fracDigitsChars_zero]
  rw [show (if d.neg then ['-'] else []) ++
      (intDigitsChars (d.coeff / 10 ^ (-d.exp).toNat) ++
        '.' :: List.replicate (-d.exp).toNat '0') =
      ((if d.neg then ['-'] else []) ++
        intDigitsChars (d.coeff / 10 ^ (-d.exp).toNat)) ++
        '.' :: List.replicate (-d.exp).toNat '0' from by simp]
  rw [rstripZeros_all_zero _ _ (fun c hc => List.eq_of_mem_replicate hc)]
  rw [rstripDot_append_dot]
  intro c hc
  rcases List.mem_append.mp hc with h1 | h1
  · exact sign_no_dot d.neg h1
  · exact no_dot_intDigitsChars _ _ h1

theorem tts_neg_exp_rpos (d : Dec) (he : d.exp < 0)
    (hr : d.coeff % 10 ^ (-d.exp).toNat ≠ 0) :
    temperature_to_string d =
      String.mk (((if d.neg then ['-'] else []) ++
        intDigitsChars (d.coeff / 10 ^ (-d.exp).toNat)) ++
        '.' :: rstripZeros
          (fracDigitsChars (d.coeff % 10 ^ (-d.exp).toNat) (-d.exp).toNat)) := by
  have hrlt : d.coeff % 10 ^ (-d.exp).toNat < 10 ^ (-d.exp).toNat :=
    Nat.mod_lt _ (Nat.pos_pow_of_pos _ (by norm_num))
  set fp := fracDigitsChars (d.coeff % 10 ^ (-d.exp).toNat) (-d.exp).toNat with hfp
  have hne : rstripZeros fp ≠ [] := by
    intro hcon
    obtain ⟨z, hz⟩ := rstripZeros_decomp fp
    rw [hcon, List.nil_append] at hz
    have h0 : digitsToNat fp = 0 :=
      digitsToNat_all_zero fp (fun c hc => List.eq_of_mem_replicate (hz ▸ hc))
    rw [hfp, digitsToNat_fracDigitsChars hrlt] at h0
    exact hr h0
  rw [tts_expand, fixedChars_of_neg d.coeff d.exp he]
  rw [if_pos (by simp)]
  rw [show (if d.neg then ['-'] else []) ++
      (intDigitsChars (d.coeff / 10 ^ (-d.exp).toNat) ++ '.' :: fp) =
      ((if d.neg then ['-'] else []) ++
        intDigitsChars (d.coeff / 10 ^ (-d.exp).toNat)) ++ '.' :: fp from by simp]
  rw [rstripZeros_dot _ _ hne]
  cases hrev : (rstripZeros fp).reverse with
  | nil =>
    exact absurd (List.reverse_eq_nil_iff.mp hrev) hne
  | cons c0 t0 =>
    have hc0fp : c0 ∈ fp := by
      apply mem_of_mem_rstripZeros
      rw [← List.mem_reverse, hrev]
      exact List.mem_cons_self c0 t0
    have hc0 : c0 ≠ '.' := no_dot_fracDigitsChars _ _ _ hc0fp
    have hLrev : (((if d.neg then ['-'] else []) ++
        intDigitsChars (d.coeff / 10 ^ (-d.exp).toNat)) ++
          '.' :: rstripZeros fp).reverse =
        c0 :: (t0 ++ '.' :: ((if d.neg then ['-'] else []) ++
          intDigitsChars (d.coeff / 10 ^ (-d.exp).toNat)).reverse) := by
      rw [List.reverse_append, List.reverse_cons, hrev]
      simp
    rw [rstripDot_of_last_ne _ c0 _ hLrev hc0]

/-! Round-trip: parsing the rendered label recovers the numeric value. -/

theorem parseTemperature_intHead (n : ℕ) (rest : List Char) :
    parseTemperature (String.mk (intDigitsChars n ++ rest)) =
      parsePosChars (intDigitsChars n ++ rest) := by
  cases hl : intDigitsChars n with
  | nil => exact absurd hl (intDigitsChars_ne_nil n)
  | cons c0 t0 =>
    have hmem : c0 ∈ intDigitsChars n := by
      rw [hl]
      exact List.mem_cons_self c0 t0
    have hc0 : c0 ≠ '-' := by
      obtain ⟨dd, hdd, rfl⟩ := mem_intDigitsChars n hmem
      exact digitChar_ne_dash hdd
    rw [List.cons_append]
    exact parseTemperature_mk_of_ne c0 (t0 ++ rest) hc0

theorem parseTemperature_int (n : ℕ) :
    parseTemperature (String.mk (intDigitsChars n)) =
      parsePosChars (intDigitsChars n) := by
  have h := parseTemperature_intHead n []
  rwa [List.append_nil] at h

theorem parse_signed (b : Bool) (body : List Char)
    (hbody : parseTemperature (String.mk body) = parsePosChars body) :
    parseTemperature (String.mk ((if b then ['-'] else []) ++ body)) =
      (if b then -(parsePosChars body) else parsePosChars body) := by
  cases b
  · rw [if_neg (by simp), if_neg (by simp), List.nil_append, hbody]
  · rw [if_pos rfl, if_pos rfl, List.singleton_append, parseTemperature_mk_neg]

theorem val_signed (d : Dec) (u : ℚ)
    (hu : (d.coeff : ℚ) * (10 : ℚ) ^ d.exp = u) :
    d.val = (if d.neg then -u else u) := by
  rw [Dec.val, Dec.pow10_eq_zpow, Dec.sm]
  cases hb : d.neg
  · rw [if_neg (by simp), if_neg (by simp)]
    push_cast
    exact hu
  · rw [if_pos rfl, if_pos rfl]
    push_cast
    rw [neg_mul, hu]

theorem frac_value (cf q A L z k : ℕ)
    (hdm : 10 ^ k * q + A * 10 ^ z = cf)
    (hL : L + z = k) :
    (q : ℚ) + (A : ℚ) / 10 ^ L = (cf : ℚ) * ((10 : ℚ) ^ k)⁻¹ := by
  subst hL
  have hcf : (cf : ℚ) = 10 ^ (L + z) * q + A * 10 ^ z := by
    push_cast [← hdm]
    ring
  rw [hcf, pow_add]
  have hLpos : (0 : ℚ) < (10 : ℚ) ^ L := by positivity
  have hzpos : (0 : ℚ) < (10 : ℚ) ^ z := by positivity
  field_simp
  ring

theorem tts_roundtrip (d : Dec) :
    parseTemperature (temperature_to_string d) = d.val := by
  rcases lt_or_le d.exp 0 with he | he
  · -- negative exponent: the label has a decimal point before stripping
    have hk : d.exp = -(((-d.exp).toNat : ℕ) : ℤ) := by omega
    have hpow : (10 : ℚ) ^ d.exp = ((10 : ℚ) ^ (-d.exp).toNat)⁻¹ := by
      conv_lhs => rw [hk]
      rw [zpow_neg, zpow_natCast]
    have hdm := Nat.div_add_mod d.coeff (10 ^ (-d.exp).toNat)
    by_cases hr : d.coeff % 10 ^ (-d.exp).toNat = 0
    · -- the fraction digits are all zero and are stripped entirely
      have hbody_val : parsePosChars (intDigitsChars (d.coeff / 10 ^ (-d.exp).toNat)) =
          (d.coeff : ℚ) * (10 : ℚ) ^ d.exp := by
        rw [parsePosChars_no_dot _ (no_dot_intDigitsChars _),
          digitsToNat_intDigitsChars, hpow]
        have hc : (d.coeff : ℚ) =
            (10 : ℚ) ^ (-d.exp).toNat *
              ((d.coeff / 10 ^ (-d.exp).toNat : ℕ) : ℚ) := by
          rw [hr, Nat.add_zero] at hdm
          have h2 := congrArg (fun n : ℕ => (n : ℚ)) hdm.symm
          push_cast at h2
          exact h2
        rw [hc]
        field_simp
      rw [tts_neg_exp_rzero d he hr,
        parse_signed d.neg _ (parseTemperature_int _), hbody_val,
        val_signed d _ rfl]
    · -- nonzero fraction digits survive the strip
      have hrlt : d.coeff % 10 ^ (-d.exp).toNat < 10 ^ (-d.exp).toNat :=
        Nat.mod_lt _ (Nat.pos_pow_of_pos _ (by norm_num))
      obtain ⟨z, hz⟩ :=
        rstripZeros_decomp
          (fracDigitsChars (d.coeff % 10 ^ (-d.exp).toNat) (-d.exp).toNat)
      have hA : digitsToNat
            (rstripZeros (fracDigitsChars (d.coeff % 10 ^ (-d.exp).toNat)
              (-d.exp).toNat)) * 10 ^ z = d.coeff % 10 ^ (-d.exp).toNat := by
        rw [← digitsToNat_append_replicate, ← hz, digitsToNat_fracDigitsChars hrlt]
      have hL : (rstripZeros (fracDigitsChars (d.coeff % 10 ^ (-d.exp).toNat)
            (-d.exp).toNat)).length + z = (-d.exp).toNat := by
        have hlen := congrArg List.length hz
        rw [List.length_append, List.length_replicate,
          fracDigitsChars_length hrlt] at hlen
        omega
      have hbody_val : parsePosChars
          (intDigitsChars (d.coeff / 10 ^ (-d.exp).toNat) ++
            '.' :: rstripZeros (fracDigitsChars (d.coeff % 10 ^ (-d.exp).toNat)
              (-d.exp).toNat)) = (d.coeff : ℚ) * (10 : ℚ) ^ d.exp := by
        rw [parsePosChars_dot _ _ (no_dot_intDigitsChars _),
          digitsToNat_intDigitsChars, hpow]
        exact frac_value d.coeff _ _ _ z _ (by rw [hA]; exact hdm) hL
      rw [tts_neg_exp_rpos d he hr, List.append_assoc,
        parse_signed d.neg _ (parseTemperature_intHead _ _), hbody_val,
        val_signed d _ rfl]
  · -- nonnegative exponent: a plain integer label with no point
    have hbody_val : parsePosChars (intDigitsChars (d.coeff * 10 ^ d.exp.toNat)) =
        (d.coeff : ℚ) * (10 : ℚ) ^ d.exp := by
      rw [parsePosChars_no_dot _ (no_dot_intDigitsChars _),
        digitsToNat_intDigitsChars]
      have h10 : (10 : ℚ) ^ d.exp = (10 : ℚ) ^ d.exp.toNat := by
        rw [← zpow_natCast]
        congr 1
        omega
      rw [h10]
      push_cast
      ring
    rw [tts_of_nonneg d he,
      parse_signed d.neg _ (parseTemperature_int _), hbody_val,
      val_signed d _ rfl]

/-! Canonicity: numerically equal decimals with the same sign flag render
identically.  Proved by normalising the coefficient/exponent pair without
changing the label. -/

theorem fracDigitsChars_shift (r k : ℕ) (hr : r < 10 ^ k) :
    fracDigitsChars (10 * r) (k + 1) = fracDigitsChars r k ++ ['0'] := by
  by_cases h0 : r = 0
  · subst h0
    rw [Nat.mul_zero, fracDigitsChars_zero, fracDigitsChars_zero,
      ← List.replicate_succ']
  · have hne : 10 * r ≠ 0 := by positivity
    have hdig : digitsLE (10 * r) = 0 :: digitsLE r := by
      rw [digitsLE_eq, digitsLE_eq,
        Nat.digits_def' (by norm_num : 1 < 10) (Nat.pos_of_ne_zero hne),
        Nat.mul_mod_right, Nat.mul_div_cancel_left r (by norm_num)]
    unfold fracDigitsChars
    rw [hdig]
    have hlen : (0 :: digitsLE r).length = (digitsLE r).length + 1 := rfl
    rw [hlen]
    have hsub : k + 1 - ((digitsLE r).length + 1) = k - (digitsLE r).length := by
      omega
    rw [hsub, List.cons_append, List.map_cons, List.reverse_cons]
    rfl

theorem tts_collapse (s : Bool) (c : ℕ) (e : ℤ) (he : 0 ≤ e) :
    temperature_to_string ⟨s, c, e⟩ =
      temperature_to_string ⟨s, c * 10 ^ e.toNat, 0⟩ := by
  rw [tts_of_nonneg ⟨s, c, e⟩ he, tts_of_nonneg ⟨s, c * 10 ^ e.toNat, 0⟩ le_rfl]
  have h0 : ((0 : ℤ).toNat : ℕ) = 0 := rfl
  simp only [h0, pow_zero, Nat.mul_one]

theorem tts_step (s : Bool) (c : ℕ) (e : ℤ) (he : e < 0) (hc : c % 10 = 0) :
    temperature_to_string ⟨s, c, e⟩ =
      temperature_to_string ⟨s, c / 10, e + 1⟩ := by
  have hdvd : 10 ∣ c := Nat.dvd_of_mod_eq_zero hc
  have hc10 : 10 * (c / 10) = c := Nat.mul_div_cancel' hdvd
  rcases eq_or_lt_of_le (by omega : e + 1 ≤ 0) with he1 | he1
  · -- one fraction digit: it is `0` and the whole tail is stripped
    have hk1 : ((-e).toNat : ℕ) = 1 := by omega
    have hr0 : c % 10 ^ (-e).toNat = 0 := by
      rw [hk1, pow_one]
      exact hc
    rw [tts_neg_exp_rzero ⟨s, c, e⟩ he hr0]
    have hq : c / 10 ^ (-e).toNat = c / 10 := by
      rw [hk1, pow_one]
    rw [tts_of_nonneg ⟨s, c / 10, e + 1⟩ (by show (0 : ℤ) ≤ e + 1; omega)]
    have h0 : ((e + 1).toNat : ℕ) = 0 := by omega
    simp only [hq, h0, pow_zero, Nat.mul_one]
  · -- at least two fraction digits: the last one is `0` and is stripped
    have hk2 : ((-e).toNat : ℕ) = (-(e + 1)).toNat + 1 := by omega
    set k2 := (-(e + 1)).toNat with hk2def
    have hq : c / 10 ^ (-e).toNat = (c / 10) / 10 ^ k2 := by
      rw [hk2, pow_succ, Nat.div_div_eq_div_mul, Nat.mul_comm (10 ^ k2) 10]
    have hrm : c % 10 ^ (-e).toNat = 10 * ((c / 10) % 10 ^ k2) := by
      conv_lhs => rw [← hc10]
      rw [hk2, pow_succ, Nat.mul_comm (10 ^ k2) 10, Nat.mul_mod_mul_left]
    by_cases hr : (c / 10) % 10 ^ k2 = 0
    · have hr0 : c % 10 ^ (-e).toNat = 0 := by
        rw [hrm, hr, Nat.mul_zero]
      rw [tts_neg_exp_rzero ⟨s, c, e⟩ he hr0,
        tts_neg_exp_rzero ⟨s, c / 10, e + 1⟩ he1 hr]
      simp only [hq]
    · have hrpos : c % 10 ^ (-e).toNat ≠ 0 := by
        rw [hrm]
        positivity
      rw [tts_neg_exp_rpos ⟨s, c, e⟩ he hrpos,
        tts_neg_exp_rpos ⟨s, c / 10, e + 1⟩ he1 hr]
      have hrlt2 : (c / 10) % 10 ^ k2 < 10 ^ k2 :=
        Nat.mod_lt _ (Nat.pos_pow_of_pos _ (by norm_num))
      have hfrac : fracDigitsChars ((Dec.mk s c e).coeff % 10 ^ (-(Dec.mk s c e).exp).toNat)
            (-(Dec.mk s c e).exp).toNat =
          fracDigitsChars ((c / 10) % 10 ^ k2) k2 ++ ['0'] := by
        show fracDigitsChars (c % 10 ^ (-e).toNat) (-e).toNat = _
        rw [hrm, hk2, fracDigitsChars_shift _ _ hrlt2]
      rw [hfrac, rstripZeros_append_zero]
      simp only [hq]

/-- Fuelled exponent normalisation: while the exponent is negative and the
coefficient ends in zero, shift one power of ten from the coefficient to the
exponent.  The label is invariant under each step. -/
def normAux : ℕ → ℕ → ℤ → ℕ × ℤ
  | 0, c, e => (c, e)
  | f + 1, c, e =>
    if e < 0 ∧ c % 10 = 0 then normAux f (c / 10) (e + 1) else (c, e)

/-- Canonical coefficient/exponent pair with the same label and value. -/
def normPair (c : ℕ) (e : ℤ) : ℕ × ℤ :=
  if 0 ≤ e then (c * 10 ^ e.toNat, 0) else normAux (-e).toNat c e

theorem tts_normAux (f : ℕ) : ∀ (c : ℕ) (e : ℤ) (s : Bool),
    temperature_to_string ⟨s, c, e⟩ =
      temperature_to_string ⟨s, (normAux f c e).1, (normAux f c e).2⟩ := by
  induction f with
  | zero => intro c e s; rfl
  | succ f ih =>
    intro c e s
    by_cases h : e < 0 ∧ c % 10 = 0
    · rw [show normAux (f + 1) c e = normAux f (c / 10) (e + 1) from by
        simp only [normAux, if_pos h]]
      rw [tts_step s c e h.1 h.2]
      exact ih (c / 10) (e + 1) s
    · rw [show normAux (f + 1) c e = (c, e) from by
        simp only [normAux, if_neg h]]

theorem val_normAux (f : ℕ) : ∀ (c : ℕ) (e : ℤ),
    (((normAux f c e).1 : ℚ)) * (10 : ℚ) ^ (normAux f c e).2 =
      (c : ℚ) * (10 : ℚ) ^ e := by
  induction f with
  | zero => intro c e; rfl
  | succ f ih =>
    intro c e
    by_cases h : e < 0 ∧ c % 10 = 0
    · rw [show normAux (f + 1) c e = normAux f (c / 10) (e + 1) from by
        simp only [normAux, if_pos h]]
      rw [ih (c / 10) (e + 1)]
      have hdvd : 10 ∣ c := Nat.dvd_of_mod_eq_zero h.2
      have hc10 : (c : ℚ) = 10 * ((c / 10 : ℕ) : ℚ) := by
        have h2 := congrArg (fun n : ℕ => (n : ℚ)) (Nat.mul_div_cancel' hdvd).symm
        push_cast at h2
        exact h2
      rw [zpow_add_one₀ (by norm_num : (10 : ℚ) ≠ 0), hc10]
      ring
    · rw [show normAux (f + 1) c e = (c, e) from by
        simp only [normAux, if_neg h]]

theorem normAux_ne_zero (f : ℕ) : ∀ (c : ℕ) (e : ℤ), c ≠ 0 →
    (normAux f c e).1 ≠ 0 := by
  induction f with
  | zero => intro c e hc; exact hc
  | succ f ih =>
    intro c e hc
    by_cases h : e < 0 ∧ c % 10 = 0
    · rw [show normAux (f + 1) c e = normAux f (c / 10) (e + 1) from by
        simp only [normAux, if_pos h]]
      apply ih
      have hdvd : 10 ∣ c := Nat.dvd_of_mod_eq_zero h.2
      have := Nat.mul_div_cancel' hdvd
      intro hcon
      rw [hcon, Nat.mul_zero] at this
      exact hc this.symm
    · rw [show normAux (f + 1) c e = (c, e) from by
        simp only [normAux, if_neg h]]
      exact hc

theorem normAux_spec (f : ℕ) : ∀ (c : ℕ) (e : ℤ), e ≤ 0 → (-e).toNat ≤ f →
    (normAux f c e).2 ≤ 0 ∧
      ((normAux f c e).2 = 0 ∨ (normAux f c e).1 % 10 ≠ 0) := by
  induction f with
  | zero =>
    intro c e he hf
    have he0 : e = 0 := by omega
    subst he0
    exact ⟨le_rfl, Or.inl rfl⟩
  | succ f ih =>
    intro c e he hf
    by_cases h : e < 0 ∧ c % 10 = 0
    · rw [show normAux (f + 1) c e = normAux f (c / 10) (e + 1) from by
        simp only [normAux, if_pos h]]
      exact ih (c / 10) (e + 1) (by omega) (by omega)
    · rw [show normAux (f + 1) c e = (c, e) from by
        simp only [normAux, if_neg h]]
      refine ⟨he, ?_⟩
      rcases eq_or_lt_of_le he with he0 | hneg
      · exact Or.inl he0
      · right
        intro hmod
        exact h ⟨hneg, hmod⟩

theorem tts_normPair (s : Bool) (c : ℕ) (e : ℤ) :
    temperature_to_string ⟨s, c, e⟩ =
      temperature_to_string ⟨s, (normPair c e).1, (normPair c e).2⟩ := by
  unfold normPair
  by_cases h : 0 ≤ e
  · rw [if_pos h]
    exact tts_collapse s c e h
  · rw [if_neg h]
    exact tts_normAux (-e).toNat c e s

theorem val_normPair (c : ℕ) (e : ℤ) :
    (((normPair c e).1 : ℕ) : ℚ) * (10 : ℚ) ^ (normPair c e).2 =
      (c : ℚ) * (10 : ℚ) ^ e := by
  unfold normPair
  by_cases h : 0 ≤ e
  · rw [if_pos h]
    show ((c * 10 ^ e.toNat : ℕ) : ℚ) * (10 : ℚ) ^ (0 : ℤ) = (c : ℚ) * (10 : ℚ) ^ e
    rw [zpow_zero, mul_one]
    push_cast
    rw [show ((10 : ℚ)) ^ (e.toNat) = (10 : ℚ) ^ e from by
      rw [← zpow_natCast]
      congr 1
      omega]
  · rw [if_neg h]
    exact val_normAux (-e).toNat c e

theorem normPair_spec (c : ℕ) (e : ℤ) :
    (normPair c e).2 ≤ 0 ∧
      ((normPair c e).2 = 0 ∨ (normPair c e).1 % 10 ≠ 0) := by
  unfold normPair
  by_cases h : 0 ≤ e
  · rw [if_pos h]
    exact ⟨le_rfl, Or.inl rfl⟩
  · rw [if_neg h]
    exact normAux_spec (-e).toNat c e (by omega) le_rfl

theorem normPair_ne_zero (c : ℕ) (e : ℤ) (hc : c ≠ 0) :
    (normPair c e).1 ≠ 0 := by
  unfold normPair
  by_cases h : 0 ≤ e
  · rw [if_pos h]
    exact Nat.mul_ne_zero hc (pow_ne_zero _ (by norm_num))
  · rw [if_neg h]
    exact normAux_ne_zero _ c e hc

theorem norm_unique (m1 m2 : ℕ) (t1 t2 : ℤ)
    (ht1 : t1 ≤ 0) (hc1 : t1 = 0 ∨ m1 % 10 ≠ 0)
    (ht2 : t2 ≤ 0) (hc2 : t2 = 0 ∨ m2 % 10 ≠ 0)
    (hm1 : m1 ≠ 0) (hm2 : m2 ≠ 0)
    (hv : (m1 : ℚ) * (10 : ℚ) ^ t1 = (m2 : ℚ) * (10 : ℚ) ^ t2) :
    m1 = m2 ∧ t1 = t2 := by
  obtain ⟨a, ha⟩ : ∃ a : ℕ, t1 = -(a : ℤ) := ⟨(-t1).toNat, by omega⟩
  obtain ⟨b, hbb⟩ : ∃ b : ℕ, t2 = -(b : ℤ) := ⟨(-t2).toNat, by omega⟩
  rw [ha, hbb, zpow_neg, zpow_neg, zpow_natCast, zpow_natCast,
    ← div_eq_mul_inv, ← div_eq_mul_inv,
    div_eq_div_iff (by positivity) (by positivity)] at hv
  have hN : m1 * 10 ^ b = m2 * 10 ^ a := by exact_mod_cast hv
  rcases lt_trichotomy a b with hab | hab | hab
  · exfalso
    have hsum : b - a + a = b := by omega
    have h' : m1 * 10 ^ (b - a) * 10 ^ a = m2 * 10 ^ a := by
      rw [mul_assoc, ← pow_add, hsum]
      exact hN
    have hm2eq : m1 * 10 ^ (b - a) = m2 :=
      Nat.eq_of_mul_eq_mul_right (pow_pos (by norm_num) a) h'
    have hdvd : (10 : ℕ) ∣ m2 := by
      rw [← hm2eq]
      exact Dvd.dvd.mul_left (dvd_pow_self 10 (by omega)) m1
    obtain ⟨w, hw⟩ := hdvd
    rcases hc2 with h0 | hmm
    · omega
    · apply hmm
      omega
  · constructor
    · subst hab
      exact Nat.eq_of_mul_eq_mul_right (pow_pos (by norm_num) a) hN
    · omega
  · exfalso
    have hsum : a - b + b = a := by omega
    have h' : m1 * 10 ^ b = m2 * 10 ^ (a - b) * 10 ^ b := by
      rw [mul_assoc, ← pow_add, hsum]
      exact hN
    have hm1eq : m1 = m2 * 10 ^ (a - b) :=
      Nat.eq_of_mul_eq_mul_right (pow_pos (by norm_num) b) h'
    have hdvd : (10 : ℕ) ∣ m1 := by
      rw [hm1eq]
      exact Dvd.dvd.mul_left (dvd_pow_self 10 (by omega)) m2
    obtain ⟨w, hw⟩ := hdvd
    rcases hc1 with h0 | hmm
    · omega
    · apply hmm
      omega

theorem tts_zero (d : Dec) (h : d.coeff = 0) :
    temperature_to_string d =
      String.mk ((if d.neg then ['-'] else []) ++ ['0']) := by
  rcases lt_or_le d.exp 0 with he | he
  · have hr : d.coeff % 10 ^ (-d.exp).toNat = 0 := by
      rw [h, Nat.zero_mod]
    rw [tts_neg_exp_rzero d he hr, h, Nat.zero_div]
    rfl
  · rw [tts_of_nonneg d he, h, Nat.zero_mul]
    rfl

theorem val_eq_zero_iff (d : Dec) : d.val = 0 ↔ d.coeff = 0 := by
  rw [Dec.val]
  have hp := Dec.pow10_pos d.exp
  constructor
  · intro h
    rcases mul_eq_zero.mp h with h1 | h1
    · have h2 : d.sm = 0 := by exact_mod_cast h1
      rw [Dec.sm] at h2
      split at h2 <;> omega
    · exact absurd h1 (ne_of_gt hp)
  · intro h
    have h2 : d.sm = 0 := by
      rw [Dec.sm, h]
      split <;> simp
    rw [h2]
    simp

theorem val_pos_of (d : Dec) (hb : d.neg = false) (hc : d.coeff ≠ 0) :
    0 < d.val := by
  rw [Dec.val, Dec.sm, hb, if_neg (by simp)]
  apply mul_pos
  · exact_mod_cast Nat.pos_of_ne_zero hc
  · exact Dec.pow10_pos d.exp

theorem val_neg_of (d : Dec) (hb : d.neg = true) (hc : d.coeff ≠ 0) :
    d.val < 0 := by
  rw [Dec.val, Dec.sm, hb, if_pos rfl]
  apply mul_neg_of_neg_of_pos
  · have hpos : (0 : ℚ) < (d.coeff : ℚ) := by
      exact_mod_cast Nat.pos_of_ne_zero hc
    push_cast
    linarith
  · exact Dec.pow10_pos d.exp

theorem neg_eq_of_val_eq (d1 d2 : Dec) (hv : d1.val = d2.val)
    (h0 : d1.val ≠ 0) : d1.neg = d2.neg := by
  have h1 : d1.coeff ≠ 0 := fun h => h0 ((val_eq_zero_iff d1).mpr h)
  have h2 : d2.coeff ≠ 0 := by
    intro h
    apply h0
    rw [hv]
    exact (val_eq_zero_iff d2).mpr h
  cases hb1 : d1.neg <;> cases hb2 : d2.neg
  · rfl
  · exfalso
    have ha := val_pos_of d1 hb1 h1
    have hbneg := val_neg_of d2 hb2 h2
    linarith [hv]
  · exfalso
    have ha := val_neg_of d1 hb1 h1
    have hbpos := val_pos_of d2 hb2 h2
    linarith [hv]
  · rfl

theorem unsigned_eq (d1 d2 : Dec) (hv : d1.val = d2.val)
    (hb : d1.neg = d2.neg) :
    (d1.coeff : ℚ) * (10 : ℚ) ^ d1.exp =
      (d2.coeff : ℚ) * (10 : ℚ) ^ d2.exp := by
  rw [Dec.val, Dec.val, Dec.pow10_eq_zpow, Dec.pow10_eq_zpow,
    Dec.sm, Dec.sm, ← hb] at hv
  cases hb1 : d1.neg <;> rw [hb1] at hv
  · rw [if_neg (by simp), if_neg (by simp)] at hv
    push_cast at hv
    exact hv
  · rw [if_pos rfl, if_pos rfl] at hv
    push_cast at hv
    linarith

theorem tts_canonical (d1 d2 : Dec) (hv : d1.val = d2.val)
    (hs : d1.neg = d2.neg ∨ d1.val ≠ 0) :
    temperature_to_string d1 = temperature_to_string d2 := by
  by_cases h0 : d1.coeff = 0
  · have hz1 : d1.val = 0 := (val_eq_zero_iff d1).mpr h0
    have hz2 : d2.coeff = 0 := (val_eq_zero_iff d2).mp (by rw [← hv]; exact hz1)
    have hb : d1.neg = d2.neg := by
      rcases hs with h | h
      · exact h
      · exact absurd hz1 h
    rw [tts_zero d1 h0, tts_zero d2 hz2, hb]
  · have hz1 : d1.val ≠ 0 := fun h => h0 ((val_eq_zero_iff d1).mp h)
    have h02 : d2.coeff ≠ 0 := by
      intro h
      apply hz1
      rw [hv]
      exact (val_eq_zero_iff d2).mpr h
    have hb : d1.neg = d2.neg := neg_eq_of_val_eq d1 d2 hv hz1
    have hu : (d1.coeff : ℚ) * (10 : ℚ) ^ d1.exp =
        (d2.coeff : ℚ) * (10 : ℚ) ^ d2.exp := unsigned_eq d1 d2 hv hb
    have hval12 : ((normPair d1.coeff d1.exp).1 : ℚ) *
        (10 : ℚ) ^ (normPair d1.coeff d1.exp).2 =
        ((normPair d2.coeff d2.exp).1 : ℚ) *
          (10 : ℚ) ^ (normPair d2.coeff d2.exp).2 := by
      rw [val_normPair, val_normPair]
      exact hu
    obtain ⟨hm, ht⟩ := norm_unique _ _ _ _
      (normPair_spec d1.coeff d1.exp).1 (normPair_spec d1.coeff d1.exp).2
      (normPair_spec d2.coeff d2.exp).1 (normPair_spec d2.coeff d2.exp).2
      (normPair_ne_zero _ _ h0) (normPair_ne_zero _ _ h02) hval12
    have e1 : temperature_to_string d1 =
        temperature_to_string ⟨d1.neg, (normPair d1.coeff d1.exp).1,
          (normPair d1.coeff d1.exp).2⟩ :=
      tts_normPair d1.neg d1.coeff d1.exp
    have e2 : temperature_to_string d2 =
        temperature_to_string ⟨d2.neg, (normPair d2.coeff d2.exp).1,
          (normPair d2.coeff d2.exp).2⟩ :=
      tts_normPair d2.neg d2.coeff d2.exp
    rw [e1, e2, hb, hm, ht]

/-- C9: `temperature_to_string` round-trips — parsing the rendered label of
any decimal (in particular any decimal reachable by the range generator)
recovers its numeric value — and it is value-canonical for decimals of the
same sign class: two numerically equal decimals render to the identical
label whenever they carry the same sign flag or are nonzero.  (Amended: the
unrestricted canonicity of the claim fails on the negative zero, see the
counterexample.) -/
theorem temperature_to_string_value_canonical (d d1 d2 : Dec)
    (hv : d1.val = d2.val)
    (hs : d1.neg = d2.neg ∨ d1.val ≠ 0) :
    parseTemperature (temperature_to_string d) = d.val ∧
      temperature_to_string d1 = temperature_to_string d2 :=
  ⟨tts_roundtrip d, tts_canonical d1 d2 hv hs⟩

/-- C9 witness: 16.5 written as `165E-1` and as `1650E-2` — numerically
equal, same sign flag — parse back to their value and render identically. -/
theorem temperature_to_string_value_canonical_witness :
    (Dec.mk false 165 (-1)).val = (Dec.mk false 1650 (-2)).val ∧
      ((Dec.mk false 165 (-1)).neg = (Dec.mk false 1650 (-2)).neg ∨
        (Dec.mk false 165 (-1)).val ≠ 0) ∧
      (parseTemperature (temperature_to_string (Dec.mk false 165 (-1))) =
          (Dec.mk false 165 (-1)).val ∧
        temperature_to_string (Dec.mk false 165 (-1)) =
          temperature_to_string (Dec.mk false 1650 (-2))) := by
  have hv : (Dec.mk false 165 (-1)).val = (Dec.mk false 1650 (-2)).val := by
    unfold Dec.val
    rw [Dec.pow10_eq_zpow, Dec.pow10_eq_zpow]
    norm_num [Dec.sm]
  exact ⟨hv, Or.inl rfl,
    temperature_to_string_value_canonical (Dec.mk false 165 (-1))
      (Dec.mk false 165 (-1)) (Dec.mk false 1650 (-2)) hv (Or.inl rfl)⟩

/-- C9 counterexample: the spec's unrestricted value-canonicity fails.
`Decimal("-0.0")` and `Decimal("0.0")` are numerically equal, yet
`temperature_to_string` renders them as `-0` and `0` respectively. -/
theorem temperature_to_string_not_value_canonical :
    (Dec.mk true 0 (-1)).val = (Dec.mk false 0 (-1)).val ∧
      temperature_to_string (Dec.mk true 0 (-1)) = String.mk ['-', '0'] ∧
      temperature_to_string (Dec.mk false 0 (-1)) = String.mk ['0'] ∧
      temperature_to_string (Dec.mk true 0 (-1)) ≠
        temperature_to_string (Dec.mk false 0 (-1)) := by
  refine ⟨by norm_num [Dec.val, Dec.sm], rfl, rfl, ?_⟩
  intro h
  exact absurd (congrArg String.data h) (by decide)
